import Mathlib

/-!
Verification development for the options-analytics core of the
quant-options-agent repository.  The Python sources under
src/scripts/fetch_options_data.py, src/scripts/local_server.py and
src/backend/main.py are shallowly embedded below: contract data is
modelled over the rationals, analytic (Black-Scholes) values over the
reals, Python dictionaries as insertion-ordered association lists, and
the stable Timsort of Python list.sort and sorted as insertion sort
(Mathlib's List.insertionSort is stable and inserts earlier elements in
front of equal keys, matching Python's documented tie behaviour).
Python's round(x, n) is modelled as rounding x * 10^n to the nearest
integer; half-way cases (where Python rounds to even) are avoided in all
concrete inputs used here.
-/

namespace OptionsQuant

open List

/-- Model of Python round(x, n) for rationals: multiply by 10^n, round to the
nearest integer, divide back.  Exact on every non-midpoint input. -/
def roundq (n : ℕ) (x : ℚ) : ℚ :=
  ((round (x * 10 ^ n) : ℤ) : ℚ) / 10 ^ n

/-- Model of Python round(x, n) for real-valued quantities. -/
noncomputable def roundr (n : ℕ) (x : ℝ) : ℝ :=
  ((round (x * 10 ^ n) : ℤ) : ℝ) / 10 ^ n

/-- Option side, the "side" field of the option dictionaries built in
fetch_options_chain. -/
inductive Side where
  | CALL : Side
  | PUT : Side
deriving DecidableEq

/-- One option row as produced by fetch_options_chain in
fetch_options_data.py: keys strike, side, iv, oi, vol. -/
structure Opt where
  strike : ℚ
  side : Side
  iv : ℚ
  oi : ℚ
  vol : ℚ
deriving DecidableEq

/-- Python dict membership test for an association list keyed by strike. -/
def dictHas {β : Type} (m : List (ℚ × β)) (k : ℚ) : Bool :=
  m.any (fun p => decide (p.1 = k))

/-- Python dict "if k not in d: d[k] = v": append the default entry at the end
(insertion order) unless the key is present. -/
def dictSetD {β : Type} (m : List (ℚ × β)) (k : ℚ) (v : β) : List (ℚ × β) :=
  if dictHas m k then m else m ++ [(k, v)]

/-- Python dict in-place update d[k] = f d[k] (keys are unique by
construction, so mapping over all entries with that key is the update). -/
def dictUpd {β : Type} (m : List (ℚ × β)) (k : ℚ) (f : β → β) : List (ℚ × β) :=
  m.map (fun p => if p.1 = k then (p.1, f p.2) else p)

/-- Python dict lookup with a default. -/
def dictGet {β : Type} (m : List (ℚ × β)) (k : ℚ) (d : β) : β :=
  ((m.find? (fun p => decide (p.1 = k))).map Prod.snd).getD d

/-- State of the running-minimum in the max-pain loops: none models the
initial float('inf'), so the first candidate always wins. -/
def ltMin (v : ℚ) : Option ℚ → Bool
  | none => true
  | some m => decide (v < m)

/-- The max-pain search loop shared by both calculate_max_pain
implementations: walk the candidate strikes, keep the first strike whose
total value is strictly below the running minimum. -/
def mpLoop (f : ℚ → ℚ) : List ℚ → Option ℚ → ℚ → ℚ
  | [], _, mp => mp
  | t :: rest, minv, mp =>
      if ltMin (f t) minv then mpLoop f rest (some (f t)) t
      else mpLoop f rest minv mp

/-- Specification function, modelled from the spec's words: the first element
of the list (in list order) attaining the global minimum of f, with a default
for the empty list.  An element is the first minimizer exactly when its value
is less-or-equal to the value of every later element. -/
def specFirstMin (f : ℚ → ℚ) : List ℚ → ℚ → ℚ
  | [], d => d
  | t :: rest, d =>
      if rest.all (fun y => decide (f t ≤ f y)) then t
      else specFirstMin f rest d

lemma specFirstMin_default_eq (f : ℚ → ℚ) :
    ∀ (l : List ℚ), l ≠ [] → ∀ d₁ d₂, specFirstMin f l d₁ = specFirstMin f l d₂ := by
  intro l
  induction l with
  | nil => intro h; exact absurd rfl h
  | cons t rest ih =>
    intro _ d₁ d₂
    by_cases hall : rest.all (fun y => decide (f t ≤ f y))
    · simp [specFirstMin, hall]
    · rcases rest with _ | ⟨u, us⟩
      · simp at hall
      · simp only [specFirstMin, hall, if_false]
        exact ih (by simp) d₁ d₂

lemma specFirstMin_mem (f : ℚ → ℚ) :
    ∀ (l : List ℚ) (d : ℚ), l ≠ [] → specFirstMin f l d ∈ l := by
  intro l
  induction l with
  | nil => intro d h; exact absurd rfl h
  | cons t rest ih =>
    intro d _
    by_cases hall : rest.all (fun y => decide (f t ≤ f y))
    · simp [specFirstMin, hall]
    · rcases rest with _ | ⟨u, us⟩
      · simp at hall
      · simp only [specFirstMin, hall, if_false]
        exact List.mem_cons_of_mem _ (ih d (by simp))

lemma not_all_exists_lt {f : ℚ → ℚ} {t : ℚ} {rest : List ℚ}
    (h : ¬ rest.all (fun y => decide (f t ≤ f y))) :
    ∃ w ∈ rest, f w < f t := by
  simp only [List.all_eq_true, decide_eq_true_eq] at h
  push_neg at h
  rcases h with ⟨w, hw, hlt⟩
  exact ⟨w, hw, hlt⟩

lemma specFirstMin_min (f : ℚ → ℚ) :
    ∀ (l : List ℚ) (d : ℚ), l ≠ [] →
      ∀ y ∈ l, f (specFirstMin f l d) ≤ f y := by
  intro l
  induction l with
  | nil => intro d h; exact absurd rfl h
  | cons t rest ih =>
    intro d _ y hy
    by_cases hall : rest.all (fun y => decide (f t ≤ f y))
    · simp only [specFirstMin, hall, if_true]
      rcases List.mem_cons.mp hy with rfl | hy
      · exact le_refl _
      · have := List.all_eq_true.mp hall y hy
        simpa using this
    · rcases not_all_exists_lt hall with ⟨w, hw, hwlt⟩
      have hne : rest ≠ [] := by
        intro hnil; rw [hnil] at hw; simp at hw
      simp only [specFirstMin, hall, if_false]
      rcases List.mem_cons.mp hy with rfl | hy
      · exact le_trans (ih d hne w hw) (le_of_lt hwlt)
      · exact ih d hne y hy

lemma specFirstMin_first_of_sorted (f : ℚ → ℚ) :
    ∀ (l : List ℚ) (d : ℚ), l.Sorted (· ≤ ·) →
      ∀ y ∈ l, (∀ z ∈ l, f y ≤ f z) → specFirstMin f l d ≤ y := by
  intro l
  induction l with
  | nil => intro d _ y hy; simp at hy
  | cons t rest ih =>
    intro d hsort y hy hymin
    by_cases hall : rest.all (fun y => decide (f t ≤ f y))
    · simp only [specFirstMin, hall, if_true]
      rcases List.mem_cons.mp hy with rfl | hy
      · exact le_refl _
      · exact (List.sorted_cons.mp hsort).1 y hy
    · rcases not_all_exists_lt hall with ⟨w, hw, hwlt⟩
      simp only [specFirstMin, hall, if_false]
      have hyne : y ≠ t := by
        rintro rfl
        exact absurd (hymin w (List.mem_cons_of_mem _ hw)) (not_le.mpr hwlt)
      have hyr : y ∈ rest := (List.mem_cons.mp hy).resolve_left hyne
      exact ih d (List.sorted_cons.mp hsort).2 y hyr
        (fun z hz => hymin z (List.mem_cons_of_mem _ hz))

lemma mpLoop_of_none_lt (f : ℚ → ℚ) :
    ∀ (l : List ℚ) (m best : ℚ), (∀ x ∈ l, ¬ f x < m) →
      mpLoop f l (some m) best = best := by
  intro l
  induction l with
  | nil => intro m best _; rfl
  | cons t rest ih =>
    intro m best h
    have ht : ¬ f t < m := h t (List.mem_cons_self _ _)
    simp only [mpLoop, ltMin, decide_eq_true_eq, ht, if_false]
    exact ih m best (fun x hx => h x (List.mem_cons_of_mem _ hx))

lemma mpLoop_of_exists_lt (f : ℚ → ℚ) :
    ∀ (l : List ℚ) (m best : ℚ), (∃ x ∈ l, f x < m) →
      mpLoop f l (some m) best = specFirstMin f l best := by
  intro l
  induction l with
  | nil => intro m best h; simp at h
  | cons t rest ih =>
    intro m best h
    by_cases hlt : f t < m
    · simp only [mpLoop, ltMin, decide_eq_true_eq, hlt, if_true]
      by_cases hex : ∃ x ∈ rest, f x < f t
      · have hne : rest ≠ [] := by
          rcases hex with ⟨x, hx, _⟩
          intro hnil; rw [hnil] at hx; simp at hx
        have hall : ¬ rest.all (fun y => decide (f t ≤ f y)) := by
          rcases hex with ⟨x, hx, hxlt⟩
          simp only [List.all_eq_true, decide_eq_true_eq]
          push_neg
          exact ⟨x, hx, hxlt⟩
        rw [ih (f t) t hex, specFirstMin, if_neg hall]
        exact specFirstMin_default_eq f rest hne t best
      · push_neg at hex
        have hall : rest.all (fun y => decide (f t ≤ f y)) := by
          simp only [List.all_eq_true, decide_eq_true_eq]
          exact fun y hy => hex y hy
        rw [mpLoop_of_none_lt f rest (f t) t (fun x hx => not_lt.mpr (hex x hx))]
        rw [specFirstMin, if_pos hall]
    · simp only [mpLoop, ltMin, decide_eq_true_eq, hlt, if_false]
      have hex : ∃ x ∈ rest, f x < m := by
        rcases h with ⟨x, hx, hxlt⟩
        rcases List.mem_cons.mp hx with rfl | hxr
        · exact absurd hxlt hlt
        · exact ⟨x, hxr, hxlt⟩
      have hall : ¬ rest.all (fun y => decide (f t ≤ f y)) := by
        rcases hex with ⟨x, hx, hxlt⟩
        simp only [List.all_eq_true, decide_eq_true_eq]
        push_neg
        exact ⟨x, hx, lt_of_lt_of_le hxlt (not_lt.mp hlt)⟩
      rw [ih m best hex, specFirstMin, if_neg hall]

lemma mpLoop_eq_specFirstMin (f : ℚ → ℚ) :
    ∀ (l : List ℚ) (d : ℚ), l ≠ [] →
      mpLoop f l none d = specFirstMin f l d := by
  intro l d hne
  rcases l with _ | ⟨t, rest⟩
  · exact absurd rfl hne
  simp only [mpLoop, ltMin, if_true]
  by_cases hex : ∃ x ∈ rest, f x < f t
  · have hrne : rest ≠ [] := by
      rcases hex with ⟨x, hx, _⟩
      intro hnil; rw [hnil] at hx; simp at hx
    have hall : ¬ rest.all (fun y => decide (f t ≤ f y)) := by
      rcases hex with ⟨x, hx, hxlt⟩
      simp only [List.all_eq_true, decide_eq_true_eq]
      push_neg
      exact ⟨x, hx, hxlt⟩
    rw [mpLoop_of_exists_lt f rest (f t) t hex, specFirstMin, if_neg hall]
    exact specFirstMin_default_eq f rest hrne t d
  · push_neg at hex
    have hall : rest.all (fun y => decide (f t ≤ f y)) := by
      simp only [List.all_eq_true, decide_eq_true_eq]
      exact fun y hy => hex y hy
    rw [mpLoop_of_none_lt f rest (f t) t (fun x hx => not_lt.mpr (hex x hx))]
    rw [specFirstMin, if_pos hall]

namespace Fetch

/-- Per-strike bucket grouped in calculate_max_pain of fetch_options_data.py:
dict entries with keys call_oi and put_oi, both initialised to 0. -/
structure MPBucket where
  call_oi : ℚ
  put_oi : ℚ
deriving DecidableEq

/-- Branch body of the grouping loop in calculate_max_pain: a CALL writes
call_oi, anything else writes put_oi (plain assignment, not addition). -/
def mpUpd (o : Opt) (b : MPBucket) : MPBucket :=
  match o.side with
  | Side.CALL => { b with call_oi := o.oi }
  | Side.PUT => { b with put_oi := o.oi }

/-- One iteration of the grouping loop in calculate_max_pain: skip strikes
at or below zero, create the default bucket on first sight, then assign. -/
def mpStep (m : List (ℚ × MPBucket)) (o : Opt) : List (ℚ × MPBucket) :=
  if o.strike ≤ 0 then m
  else dictUpd (dictSetD m o.strike ⟨0, 0⟩) o.strike (mpUpd o)

/-- The strikes_data dict of calculate_max_pain in fetch_options_data.py. -/
def mpBuckets (options : List Opt) : List (ℚ × MPBucket) :=
  options.foldl mpStep []

/-- Python sorted(strikes_data.keys()): candidate strikes in ascending
order. -/
def mpTestStrikes (options : List Opt) : List ℚ :=
  List.insertionSort (· ≤ ·) ((mpBuckets options).map Prod.fst)

/-- Total option value at expiration price t, summed over the buckets in
dict insertion order, with the 100 contract multiplier. -/
def mpTotalValue (m : List (ℚ × MPBucket)) (t : ℚ) : ℚ :=
  (m.map (fun p =>
    (max 0 (t - p.1) * p.2.call_oi + max 0 (p.1 - t) * p.2.put_oi) * 100)).sum

/-- The calculate_max_pain function of fetch_options_data.py. -/
def calculate_max_pain (options : List Opt) (spot : ℚ) : ℚ :=
  if options = [] then roundq 2 spot
  else
    let m := mpBuckets options
    if m = [] then roundq 2 spot
    else roundq 2 (mpLoop (mpTotalValue m) (mpTestStrikes options) none spot)

end Fetch

namespace LocalSrv

/-- One entry of the strikes_data list in local_server.py: a dict that may
lack any of the per-side keys, so every per-side field is an Option and the
consumers apply the Python .get defaults. -/
structure StrikeData where
  strike : ℚ
  call_oi : Option ℚ := none
  put_oi : Option ℚ := none
  call_volume : Option ℚ := none
  put_volume : Option ℚ := none
  call_iv : Option ℚ := none
  put_iv : Option ℚ := none
deriving DecidableEq

/-- Total option value at expiration price t in calculate_max_pain of
local_server.py, with the .get(_, 0) defaults. -/
def mpValue (sd : List StrikeData) (t : ℚ) : ℚ :=
  (sd.map (fun s =>
    (max 0 (t - s.strike) * (s.call_oi.getD 0)
      + max 0 (s.strike - t) * (s.put_oi.getD 0)) * 100)).sum

/-- The calculate_max_pain function of local_server.py.  The candidate
strikes are taken in the order of the strikes_data list, which is NOT
sorted here. -/
def calculate_max_pain (sd : List StrikeData) (spot : ℚ) : ℚ :=
  if sd = [] then spot
  else mpLoop (mpValue sd) (sd.map (fun s => s.strike)) none spot

end LocalSrv

lemma mpTestStrikes_sorted (options : List Opt) :
    (Fetch.mpTestStrikes options).Sorted (· ≤ ·) :=
  List.sorted_insertionSort _ _

lemma mpTestStrikes_ne_nil {options : List Opt}
    (h : Fetch.mpBuckets options ≠ []) : Fetch.mpTestStrikes options ≠ [] := by
  intro hnil
  have hperm := List.perm_insertionSort (α := ℚ) (· ≤ ·)
    ((Fetch.mpBuckets options).map Prod.fst)
  rw [Fetch.mpTestStrikes] at hnil
  rw [hnil] at hperm
  exact h (List.map_eq_nil_iff.mp hperm.symm.eq_nil)

/-- C2 (amended): both max-pain searches return the first strike, in the
order their candidate list is traversed, that attains the global minimum of
the total option value; the fetch_options_data version traverses the
observed strikes in ascending order (so ties resolve to the lowest strike)
and rounds the result, and the spot fallback, to 2 decimals, while the
local_server version traverses the strikes_data list in its given order (so
ties resolve to the earliest-listed strike, not necessarily the lowest) and
returns spot unchanged when the list is empty; the fetch fallback applies
whenever the strike-bucket dict is empty, that is when the option list is
empty or holds only nonpositive strikes. -/
theorem maxPain_first_minimal (options : List Opt) (sd : List LocalSrv.StrikeData)
    (spot : ℚ) :
    (Fetch.mpBuckets options = [] →
      Fetch.calculate_max_pain options spot = roundq 2 spot) ∧
    (Fetch.mpBuckets options ≠ [] →
      Fetch.calculate_max_pain options spot =
        roundq 2 (specFirstMin (Fetch.mpTotalValue (Fetch.mpBuckets options))
          (Fetch.mpTestStrikes options) spot) ∧
      specFirstMin (Fetch.mpTotalValue (Fetch.mpBuckets options))
          (Fetch.mpTestStrikes options) spot ∈ Fetch.mpTestStrikes options ∧
      (∀ y ∈ Fetch.mpTestStrikes options,
        Fetch.mpTotalValue (Fetch.mpBuckets options)
            (specFirstMin (Fetch.mpTotalValue (Fetch.mpBuckets options))
              (Fetch.mpTestStrikes options) spot)
          ≤ Fetch.mpTotalValue (Fetch.mpBuckets options) y) ∧
      (∀ y ∈ Fetch.mpTestStrikes options,
        Fetch.mpTotalValue (Fetch.mpBuckets options) y =
          Fetch.mpTotalValue (Fetch.mpBuckets options)
            (specFirstMin (Fetch.mpTotalValue (Fetch.mpBuckets options))
              (Fetch.mpTestStrikes options) spot) →
        specFirstMin (Fetch.mpTotalValue (Fetch.mpBuckets options))
            (Fetch.mpTestStrikes options) spot ≤ y)) ∧
    (sd = [] → LocalSrv.calculate_max_pain sd spot = spot) ∧
    (sd ≠ [] →
      LocalSrv.calculate_max_pain sd spot =
        specFirstMin (LocalSrv.mpValue sd) (sd.map (fun s => s.strike)) spot ∧
      (∀ y ∈ sd.map (fun s => s.strike),
        LocalSrv.mpValue sd
            (specFirstMin (LocalSrv.mpValue sd) (sd.map (fun s => s.strike)) spot)
          ≤ LocalSrv.mpValue sd y)) := by
  refine ⟨?_, ?_, ?_, ?_⟩
  · intro h
    by_cases hopts : options = []
    · simp [Fetch.calculate_max_pain, hopts]
    · simp [Fetch.calculate_max_pain, hopts, h]
  · intro h
    have hts := mpTestStrikes_ne_nil h
    have hopts : options ≠ [] := by
      intro hnil
      exact h (by rw [hnil]; rfl)
    have heq : Fetch.calculate_max_pain options spot =
        roundq 2 (specFirstMin (Fetch.mpTotalValue (Fetch.mpBuckets options))
          (Fetch.mpTestStrikes options) spot) := by
      rw [Fetch.calculate_max_pain, if_neg hopts]
      simp only [if_neg h]
      rw [mpLoop_eq_specFirstMin _ _ _ hts]
    refine ⟨heq, specFirstMin_mem _ _ _ hts, specFirstMin_min _ _ _ hts, ?_⟩
    intro y hy hval
    refine specFirstMin_first_of_sorted _ _ _ (mpTestStrikes_sorted options) y hy ?_
    intro z hz
    rw [hval]
    exact specFirstMin_min _ _ _ hts z hz
  · intro h
    simp [LocalSrv.calculate_max_pain, h]
  · intro h
    have hts : sd.map (fun s => s.strike) ≠ [] := by
      simpa using h
    refine ⟨?_, ?_⟩
    · rw [LocalSrv.calculate_max_pain, if_neg h]
      exact mpLoop_eq_specFirstMin _ _ _ hts
    · exact specFirstMin_min _ _ _ hts

/-- C2 witness: the fetch_options_data fallback clause of
maxPain_first_minimal applied at the empty option list and spot 7. -/
theorem maxPain_first_minimal_witness :
    Fetch.calculate_max_pain [] 7 = roundq 2 7 :=
  (maxPain_first_minimal [] [] 7).1 rfl

/-- C2 counterexample: the local_server max-pain search on the two equally
painless strike buckets 105 and 95, listed in that order, returns 105 and
not the lowest tying strike 95; the fetch_options_data version on an empty
chain at spot 100.004 returns the rounded 100, not spot unchanged; and on a
single-strike chain at 100.004 it returns the rounded 100, a value outside
the observed strike set, not the minimizing strike itself. -/
theorem maxPain_tie_break_counterexample :
    LocalSrv.calculate_max_pain
        [{ strike := 105 }, { strike := 95 }] 100 = 105 ∧
    (105 : ℚ) ≠ 95 ∧
    Fetch.calculate_max_pain [] (100.004 : ℚ) = 100 ∧
    Fetch.calculate_max_pain
      [{ strike := 100.004, side := Side.CALL, iv := 1, oi := 10, vol := 0 }]
      50 = 100 ∧
    (100 : ℚ) ≠ 100.004 := by
  refine ⟨?_, by norm_num, ?_, ?_, by norm_num⟩
  · norm_num [LocalSrv.calculate_max_pain, LocalSrv.mpValue, mpLoop, ltMin]
    simp
  · norm_num [Fetch.calculate_max_pain, roundq, round_eq]
  · norm_num [Fetch.calculate_max_pain, Fetch.mpBuckets, Fetch.mpStep,
      Fetch.mpUpd, Fetch.mpTestStrikes, Fetch.mpTotalValue, dictSetD, dictUpd,
      dictHas, List.insertionSort, List.orderedInsert, mpLoop, ltMin, roundq,
      round_eq]

/-- C3 (amended): on the symmetric regression chain with strikes 95, 100,
105, call open interest 10 at 105 and put open interest 10 at 95, every
candidate strike has total option value 0, so the first-minimum tie-break
returns the lowest strike 95, not the spot 100, in both implementations. -/
theorem maxPain_symmetric_chain :
    Fetch.calculate_max_pain
        [{ strike := 95, side := Side.PUT, iv := 0.3, oi := 10, vol := 0 },
         { strike := 100, side := Side.CALL, iv := 0.3, oi := 0, vol := 0 },
         { strike := 105, side := Side.CALL, iv := 0.3, oi := 10, vol := 0 }]
        100 = 95 ∧
    LocalSrv.calculate_max_pain
        [{ strike := 95, put_oi := some 10 },
         { strike := 100 },
         { strike := 105, call_oi := some 10 }] 100 = 95 := by
  constructor
  · norm_num [Fetch.calculate_max_pain, Fetch.mpBuckets, Fetch.mpStep, Fetch.mpUpd,
      Fetch.mpTestStrikes, Fetch.mpTotalValue, dictSetD, dictUpd, dictHas,
      List.insertionSort, List.orderedInsert, mpLoop, ltMin, roundq, round_eq]
    simp
  · norm_num [LocalSrv.calculate_max_pain, LocalSrv.mpValue, mpLoop, ltMin]
    simp

/-- C3 counterexample: the same symmetric chain does not yield max pain 100
as the claim states; both implementations return 95. -/
theorem maxPain_symmetric_chain_counterexample :
    Fetch.calculate_max_pain
        [{ strike := 95, side := Side.PUT, iv := 0.3, oi := 10, vol := 0 },
         { strike := 100, side := Side.CALL, iv := 0.3, oi := 0, vol := 0 },
         { strike := 105, side := Side.CALL, iv := 0.3, oi := 10, vol := 0 }]
        100 ≠ 100 ∧
    LocalSrv.calculate_max_pain
        [{ strike := 95, put_oi := some 10 },
         { strike := 100 },
         { strike := 105, call_oi := some 10 }] 100 ≠ 100 := by
  constructor
  · norm_num [Fetch.calculate_max_pain, Fetch.mpBuckets, Fetch.mpStep, Fetch.mpUpd,
      Fetch.mpTestStrikes, Fetch.mpTotalValue, dictSetD, dictUpd, dictHas,
      List.insertionSort, List.orderedInsert, mpLoop, ltMin, roundq, round_eq]
    simp
  · norm_num [LocalSrv.calculate_max_pain, LocalSrv.mpValue, mpLoop, ltMin]
    simp

section StableSortLemmas

variable {α : Type} (r : α → α → Prop) [DecidableRel r] (p : α → Bool)

lemma orderedInsert_of_forall_rel (x : α) (l : List α) (h : ∀ z ∈ l, r x z) :
    List.orderedInsert r x l = x :: l := by
  cases l with
  | nil => rfl
  | cons y ys => exact List.orderedInsert_of_le r ys (h y (List.mem_cons_self _ _))

lemma filter_orderedInsert [IsTrans α r] (x : α) (l : List α) (hs : l.Sorted r) :
    (List.orderedInsert r x l).filter p =
      if p x then List.orderedInsert r x (l.filter p) else l.filter p := by
  induction l with
  | nil =>
    by_cases hx : p x <;> simp [List.orderedInsert, hx]
  | cons y ys ih =>
    rcases List.sorted_cons.mp hs with ⟨hy, hys⟩
    by_cases hxy : r x y
    · rw [List.orderedInsert_of_le r ys hxy]
      by_cases hx : p x
      · by_cases hpy : p y
        · simp [List.filter_cons, hx, hpy, List.orderedInsert_of_le r _ hxy]
        · have hball : ∀ z ∈ ys.filter p, r x z := fun z hz =>
            Trans.trans hxy (hy z (List.mem_of_mem_filter hz))
          simp only [List.filter_cons, hx, if_true, hpy, if_false,
            Bool.false_eq_true, Bool.not_eq_true,
            orderedInsert_of_forall_rel r x _ hball]
      · simp [List.filter_cons, hx]
    · simp only [List.orderedInsert, if_neg hxy, List.filter_cons]
      rw [ih hys]
      by_cases hx : p x <;> by_cases hpy : p y <;>
        simp [hx, hpy, List.orderedInsert, hxy]

lemma filter_insertionSort [IsTotal α r] [IsTrans α r] (l : List α) :
    (List.insertionSort r l).filter p = List.insertionSort r (l.filter p) := by
  induction l with
  | nil => rfl
  | cons x xs ih =>
    simp only [List.insertionSort]
    rw [filter_orderedInsert r p x _ (List.sorted_insertionSort r xs), ih]
    by_cases hx : p x
    · simp [List.filter, hx, List.insertionSort]
    · simp [List.filter, hx]

lemma filter_take_sorted (hmono : ∀ a b, r a b → p b = true → p a = true) :
    ∀ (n : ℕ) (l : List α), l.Sorted r →
      (l.take n).filter p = (l.filter p).take n := by
  intro n
  induction n with
  | zero => intro l _; simp
  | succ m ih =>
    intro l hs
    cases l with
    | nil => simp
    | cons x xs =>
      rcases List.sorted_cons.mp hs with ⟨hx, hxs⟩
      by_cases hpx : p x
      · simp only [List.take, List.filter, hpx, ih xs hxs]
      · have hall : ∀ z ∈ xs, p z = false := by
          intro z hz
          by_contra hz2
          have : p z = true := by
            cases hpz : p z
            · exact absurd hpz hz2
            · rfl
          exact hpx (hmono x z (hx z hz) this)
        have h1 : (List.take m xs).filter p = [] := by
          apply List.filter_eq_nil_iff.mpr
          intro z hz
          simp [hall z (List.mem_of_mem_take hz)]
        have h2 : xs.filter p = [] := by
          apply List.filter_eq_nil_iff.mpr
          intro z hz
          simp [hall z hz]
        simp [List.take, List.filter, hpx, h1, h2]

end StableSortLemmas

/-- Descending-by-open-interest order on (strike, oi) pairs, the key of the
Python list sort with reverse set in calculate_walls and
select_walls_by_expiry.  Python's sort is stable, so equal open interest
keeps input order, which insertion sort reproduces. -/
def oiDescPair (a b : ℚ × ℚ) : Prop := b.2 ≤ a.2

instance : DecidableRel oiDescPair := fun a b =>
  inferInstanceAs (Decidable (b.2 ≤ a.2))

instance : IsTotal (ℚ × ℚ) oiDescPair := ⟨fun a b => le_total b.2 a.2⟩

instance : IsTrans (ℚ × ℚ) oiDescPair :=
  ⟨fun _ _ _ hab hbc => le_trans hbc hab⟩

/-- One expiry entry of the dataset built in fetch_options_data.py. -/
structure ExpiryData where
  label : String
  date : String
  options : List Opt

/-- One wall entry produced by select_walls_by_expiry. -/
structure Wall where
  strike : ℚ
  oi : ℚ
  expiry : String
deriving DecidableEq

/-- Descending-by-open-interest order on wall entries. -/
def oiDescWall (a b : Wall) : Prop := b.oi ≤ a.oi

instance : DecidableRel oiDescWall := fun a b =>
  inferInstanceAs (Decidable (b.oi ≤ a.oi))

instance : IsTotal Wall oiDescWall := ⟨fun a b => le_total b.oi a.oi⟩

instance : IsTrans Wall oiDescWall :=
  ⟨fun _ _ _ hab hbc => le_trans hbc hab⟩

namespace Fetch

/-- The calls comprehension of calculate_walls: (strike, oi) pairs of CALL
contracts with strike strictly above spot, in input order. -/
def callPairs (options : List Opt) (spot : ℚ) : List (ℚ × ℚ) :=
  (options.filter (fun o =>
    decide (o.side = Side.CALL) && decide (spot < o.strike))).map
    (fun o => (o.strike, o.oi))

/-- The puts comprehension of calculate_walls: (strike, oi) pairs of PUT
contracts with strike strictly below spot, in input order. -/
def putPairs (options : List Opt) (spot : ℚ) : List (ℚ × ℚ) :=
  (options.filter (fun o =>
    decide (o.side = Side.PUT) && decide (o.strike < spot))).map
    (fun o => (o.strike, o.oi))

/-- The calculate_walls function of fetch_options_data.py: sort each side by
open interest descending, truncate to the top top_n entries, and only then
drop the zero-open-interest entries; returns (call_walls, put_walls). -/
def calculate_walls (options : List Opt) (spot : ℚ) (top_n : ℕ) :
    List ℚ × List ℚ :=
  ((((List.insertionSort oiDescPair (callPairs options spot)).take top_n).filter
      (fun pr => decide (0 < pr.2))).map (fun pr => roundq 2 pr.1),
   (((List.insertionSort oiDescPair (putPairs options spot)).take top_n).filter
      (fun pr => decide (0 < pr.2))).map (fun pr => roundq 2 pr.1))

/-- Per-expiry positive-open-interest CALL pairs of select_walls_by_expiry. -/
def swCallPairs (e : ExpiryData) : List (ℚ × ℚ) :=
  (e.options.filter (fun o =>
    decide (o.side = Side.CALL) && decide (0 < o.oi))).map
    (fun o => (o.strike, o.oi))

/-- Per-expiry positive-open-interest PUT pairs of select_walls_by_expiry. -/
def swPutPairs (e : ExpiryData) : List (ℚ × ℚ) :=
  (e.options.filter (fun o =>
    decide (o.side = Side.PUT) && decide (0 < o.oi))).map
    (fun o => (o.strike, o.oi))

/-- Per-expiry call walls of select_walls_by_expiry: the top top_n pairs by
open interest are chosen first and only then filtered to strikes above
spot. -/
def swCallWalls (e : ExpiryData) (spot : ℚ) (top_n : ℕ) : List Wall :=
  (((List.insertionSort oiDescPair (swCallPairs e)).take top_n).filter
    (fun pr => decide (spot < pr.1))).map
    (fun pr => ⟨roundq 2 pr.1, pr.2, e.label⟩)

/-- Per-expiry put walls of select_walls_by_expiry. -/
def swPutWalls (e : ExpiryData) (spot : ℚ) (top_n : ℕ) : List Wall :=
  (((List.insertionSort oiDescPair (swPutPairs e)).take top_n).filter
    (fun pr => decide (pr.1 < spot))).map
    (fun pr => ⟨roundq 2 pr.1, pr.2, e.label⟩)

/-- The select_walls_by_expiry function of fetch_options_data.py. -/
def select_walls_by_expiry (expiries : List ExpiryData) (spot : ℚ)
    (top_n : ℕ) : List Wall × List Wall :=
  ((List.insertionSort oiDescWall
      ((expiries.map (fun e => swCallWalls e spot top_n)).flatten)).take
    (top_n * expiries.length),
   (List.insertionSort oiDescWall
      ((expiries.map (fun e => swPutWalls e spot top_n)).flatten)).take
    (top_n * expiries.length))

end Fetch

/-- C6 (amended): the call walls of calculate_walls are exactly the strikes
of the first top_n entries of the stable descending-by-open-interest sort of
the positive-open-interest CALL contracts strictly above spot (rounded to 2
decimals), and symmetrically for puts below spot; ties in open interest keep
input order (stable sort), not ascending-strike order, so the output is not
invariant under permutations of the input contract list. -/
theorem walls_top_n (options : List Opt) (spot : ℚ) (n : ℕ) :
    (Fetch.calculate_walls options spot n).1 =
      ((List.insertionSort oiDescPair
        ((options.filter (fun o => decide (0 < o.oi) &&
          (decide (o.side = Side.CALL) && decide (spot < o.strike)))).map
          (fun o => (o.strike, o.oi)))).take n).map (fun pr => roundq 2 pr.1) ∧
    (Fetch.calculate_walls options spot n).2 =
      ((List.insertionSort oiDescPair
        ((options.filter (fun o => decide (0 < o.oi) &&
          (decide (o.side = Side.PUT) && decide (o.strike < spot)))).map
          (fun o => (o.strike, o.oi)))).take n).map (fun pr => roundq 2 pr.1) ∧
    (Fetch.calculate_walls options spot n).1.length ≤ n ∧
    (Fetch.calculate_walls options spot n).2.length ≤ n := by
  have hmono : ∀ a b : ℚ × ℚ, oiDescPair a b →
      (fun pr : ℚ × ℚ => decide (0 < pr.2)) b = true →
      (fun pr : ℚ × ℚ => decide (0 < pr.2)) a = true := by
    intro a b hab hb
    simp only [decide_eq_true_eq] at hb ⊢
    exact lt_of_lt_of_le hb hab
  have hcall : (Fetch.calculate_walls options spot n).1 =
      ((List.insertionSort oiDescPair
        ((options.filter (fun o => decide (0 < o.oi) &&
          (decide (o.side = Side.CALL) && decide (spot < o.strike)))).map
          (fun o => (o.strike, o.oi)))).take n).map (fun pr => roundq 2 pr.1) := by
    rw [Fetch.calculate_walls]
    simp only
    rw [filter_take_sorted oiDescPair _ hmono n _
      (List.sorted_insertionSort oiDescPair _)]
    rw [filter_insertionSort oiDescPair _ (Fetch.callPairs options spot)]
    rw [Fetch.callPairs, List.filter_map, List.filter_filter]
    simp [Function.comp]
  have hput : (Fetch.calculate_walls options spot n).2 =
      ((List.insertionSort oiDescPair
        ((options.filter (fun o => decide (0 < o.oi) &&
          (decide (o.side = Side.PUT) && decide (o.strike < spot)))).map
          (fun o => (o.strike, o.oi)))).take n).map (fun pr => roundq 2 pr.1) := by
    rw [Fetch.calculate_walls]
    simp only
    rw [filter_take_sorted oiDescPair _ hmono n _
      (List.sorted_insertionSort oiDescPair _)]
    rw [filter_insertionSort oiDescPair _ (Fetch.putPairs options spot)]
    rw [Fetch.putPairs, List.filter_map, List.filter_filter]
    simp [Function.comp]
  refine ⟨hcall, hput, ?_, ?_⟩
  · rw [hcall]
    calc (((List.insertionSort oiDescPair _).take n).map
          (fun pr : ℚ × ℚ => roundq 2 pr.1)).length
        = ((List.insertionSort oiDescPair _).take n).length := List.length_map _ _
      _ ≤ n := List.length_take_le _ _
  · rw [hput]
    calc (((List.insertionSort oiDescPair _).take n).map
          (fun pr : ℚ × ℚ => roundq 2 pr.1)).length
        = ((List.insertionSort oiDescPair _).take n).length := List.length_map _ _
      _ ≤ n := List.length_take_le _ _

/-- C6 counterexample: with two CALL contracts of equal open interest 5 at
strikes 106 and 105 above spot 100, calculate_walls lists 106 before 105 in
input order and the reversed input produces the other order, so the claimed
order by ascending strike on ties, and with it permutation invariance, fail;
and select_walls_by_expiry with top 1 lets the below-spot strike 99 with
dominant open interest occupy the single slot and then discards it, dropping
the above-spot strike 105 entirely. -/
theorem walls_top_n_counterexample :
    (Fetch.calculate_walls
      [{ strike := 106, side := Side.CALL, iv := 0.3, oi := 5, vol := 0 },
       { strike := 105, side := Side.CALL, iv := 0.3, oi := 5, vol := 0 }]
      100 3).1 = [106, 105] ∧
    (Fetch.calculate_walls
      [{ strike := 105, side := Side.CALL, iv := 0.3, oi := 5, vol := 0 },
       { strike := 106, side := Side.CALL, iv := 0.3, oi := 5, vol := 0 }]
      100 3).1 = [105, 106] ∧
    ([106, 105] : List ℚ) ≠ [105, 106] ∧
    (Fetch.select_walls_by_expiry
      [{ label := "0DTE", date := "2026-10-12", options :=
        [{ strike := 99, side := Side.CALL, iv := 0.3, oi := 100, vol := 0 },
         { strike := 105, side := Side.CALL, iv := 0.3, oi := 5, vol := 0 }] }]
      100 1).1 = [] := by
  refine ⟨?_, ?_, by simp, ?_⟩
  · norm_num [Fetch.calculate_walls, Fetch.callPairs, Fetch.putPairs,
      List.insertionSort, List.orderedInsert, oiDescPair, roundq, round_eq]
  · norm_num [Fetch.calculate_walls, Fetch.callPairs, Fetch.putPairs,
      List.insertionSort, List.orderedInsert, oiDescPair, roundq, round_eq]
  · norm_num [Fetch.select_walls_by_expiry, Fetch.swCallWalls, Fetch.swCallPairs,
      List.insertionSort, List.orderedInsert, oiDescPair, oiDescWall,
      roundq, round_eq]


/-- Abstract expiration date: code identifies the calendar date (distinct
dates have distinct codes), weekday and day are what datetime.strptime
exposes of the date string, with weekday 4 meaning Friday.  Dates handed to
the selectors always parse, so the ValueError branch of the date helpers
(which merely returns false) is not reachable here. -/
structure ExpDate where
  code : ℕ
  weekday : ℕ
  day : ℕ
deriving DecidableEq

/-- Expiry-bucket label constants used by the selectors. -/
def lab0DTE : String := "0DTE"

/-- Label of the weekly bucket. -/
def labWEEKLY : String := "WEEKLY"

/-- Label of the monthly bucket. -/
def labMONTHLY : String := "MONTHLY"

/-- Label used by the backend fallback for extra expirations. -/
def labEXTRA : String := "EXTRA_EXP"

namespace Fetch

/-- The is_friday helper of fetch_options_data.py. -/
def is_friday (d : ExpDate) : Bool := decide (d.weekday = 4)

/-- The is_monthly helper of fetch_options_data.py: third Friday of the
month, weekday 4 and day of month between 15 and 21. -/
def is_monthly (d : ExpDate) : Bool :=
  decide (d.weekday = 4) && (decide (15 ≤ d.day) && decide (d.day ≤ 21))

/-- The is_weekly_friday helper: a Friday that is not a third Friday. -/
def is_weekly_friday (d : ExpDate) : Bool := is_friday d && !(is_monthly d)

/-- One selection pass of select_expirations: find the first date in the
full list that is unused and satisfies the predicate, append it to the
selection and mark it used. -/
def selStep (pred : ExpDate → Bool) (label : String)
    (expirations : List ExpDate)
    (st : List (String × ExpDate) × List ExpDate) :
    List (String × ExpDate) × List ExpDate :=
  match expirations.find? (fun e => !(decide (e ∈ st.2)) && pred e) with
  | some x => (st.1 ++ [(label, x)], st.2 ++ [x])
  | none => st

/-- Fallback A of select_expirations: only when fewer than 2 entries were
selected, insert the first unused plain Friday as WEEKLY at position 1. -/
def selFallbackA (expirations : List ExpDate)
    (st : List (String × ExpDate) × List ExpDate) :
    List (String × ExpDate) × List ExpDate :=
  if st.1.length < 2 then
    match expirations.find? (fun e => !(decide (e ∈ st.2)) && is_friday e) with
    | some f => (st.1.insertIdx 1 (labWEEKLY, f), st.2 ++ [f])
    | none => st
  else st

/-- Fallback B of select_expirations: when fewer than 3 entries exist,
append the first unused date labelled MONTHLY. -/
def selFallbackB (expirations : List ExpDate)
    (st : List (String × ExpDate) × List ExpDate) :
    List (String × ExpDate) × List ExpDate :=
  if st.1.length < 3 then
    match expirations.find? (fun e => !(decide (e ∈ st.2))) with
    | some x => (st.1 ++ [(labMONTHLY, x)], st.2 ++ [x])
    | none => st
  else st

/-- The select_expirations function of fetch_options_data.py: 0DTE is the
first date; WEEKLY the first unused weekly Friday; MONTHLY the first unused
third Friday; then fallback A and fallback B. -/
def select_expirations (expirations : List ExpDate) :
    List (String × ExpDate) :=
  match expirations with
  | [] => []
  | e0 :: _ =>
    (selFallbackB expirations
      (selFallbackA expirations
        (selStep is_monthly labMONTHLY expirations
          (selStep is_weekly_friday labWEEKLY expirations
            ([(lab0DTE, e0)], [e0]))))).1

end Fetch

namespace BackendM

/-- The is_monthly helper of backend/main.py (same test as the fetch
script). -/
def is_monthly (d : ExpDate) : Bool :=
  decide (d.weekday = 4) && (decide (15 ≤ d.day) && decide (d.day ≤ 21))

/-- The trailing fallback loop of select_expirations in backend/main.py:
append unused dates labelled EXTRA_EXP until three entries exist. -/
def extraLoop : List ExpDate → List ExpDate → List (String × ExpDate) →
    List (String × ExpDate)
  | [], _, sel => sel
  | e :: rest, used, sel =>
      if e ∈ used then extraLoop rest used sel
      else
        let sel2 := sel ++ [(labEXTRA, e)]
        if sel2.length = 3 then sel2 else extraLoop rest (used ++ [e]) sel2

/-- The select_expirations function of backend/main.py: 0DTE is the first
date, WEEKLY is simply the first later date regardless of weekday, MONTHLY
the first unused third Friday, then the EXTRA_EXP fallback. -/
def select_expirations (expirations : List ExpDate) :
    List (String × ExpDate) :=
  match expirations with
  | [] => []
  | e0 :: tail =>
    let st1 : List (String × ExpDate) × List ExpDate := ([(lab0DTE, e0)], [e0])
    let st2 :=
      match tail.find? (fun e => !(decide (e ∈ st1.2))) with
      | some w => (st1.1 ++ [(labWEEKLY, w)], st1.2 ++ [w])
      | none => st1
    let st3 :=
      match expirations.find? (fun e => is_monthly e && !(decide (e ∈ st2.2))) with
      | some m => (st2.1 ++ [(labMONTHLY, m)], st2.2 ++ [m])
      | none => st2
    if st3.1.length < 3 then extraLoop expirations st3.2 st3.1 else st3.1

end BackendM

lemma selStep_some {pred : ExpDate → Bool} {label : String}
    {expirations : List ExpDate} {st : List (String × ExpDate) × List ExpDate}
    {x : ExpDate}
    (h : expirations.find? (fun e => !(decide (e ∈ st.2)) && pred e) = some x) :
    Fetch.selStep pred label expirations st =
      (st.1 ++ [(label, x)], st.2 ++ [x]) := by
  simp [Fetch.selStep, h]

lemma selStep_none {pred : ExpDate → Bool} {label : String}
    {expirations : List ExpDate} {st : List (String × ExpDate) × List ExpDate}
    (h : expirations.find? (fun e => !(decide (e ∈ st.2)) && pred e) = none) :
    Fetch.selStep pred label expirations st = st := by
  simp [Fetch.selStep, h]

lemma selFallbackA_skip {expirations : List ExpDate}
    {st : List (String × ExpDate) × List ExpDate} (h : 2 ≤ st.1.length) :
    Fetch.selFallbackA expirations st = st := by
  simp [Fetch.selFallbackA, Nat.not_lt.mpr h]

lemma selFallbackB_take_two {expirations : List ExpDate}
    {st : List (String × ExpDate) × List ExpDate} {a b : String × ExpDate}
    (h : st.1 = [a, b]) :
    (Fetch.selFallbackB expirations st).1.take 2 = [a, b] := by
  rw [Fetch.selFallbackB]
  cases hf : expirations.find? (fun e => !(decide (e ∈ st.2))) with
  | none => simp [h]
  | some x => simp [h]

lemma selFallbackB_labels {expirations : List ExpDate}
    {st : List (String × ExpDate) × List ExpDate} :
    (Fetch.selFallbackB expirations st).1.map Prod.fst =
        st.1.map Prod.fst ∨
      (Fetch.selFallbackB expirations st).1.map Prod.fst =
        st.1.map Prod.fst ++ [labMONTHLY] := by
  rw [Fetch.selFallbackB]
  by_cases hlen : st.1.length < 3
  · cases hf : expirations.find? (fun e => !(decide (e ∈ st.2))) with
    | none => left; simp [hlen]
    | some x => right; simp [hlen]
  · left; simp [hlen]

lemma extraLoop_take_two :
    ∀ (l used : List ExpDate) (a b : String × ExpDate),
      (BackendM.extraLoop l used [a, b]).take 2 = [a, b] := by
  intro l
  induction l with
  | nil => intro used a b; rfl
  | cons e rest ih =>
    intro used a b
    by_cases hu : e ∈ used
    · simp only [BackendM.extraLoop, if_pos hu]
      exact ih used a b
    · simp [BackendM.extraLoop, hu]

theorem expiry_selection_rules (e0 : ExpDate) (tl : List ExpDate) :
    (∀ w, (e0 :: tl).find?
        (fun e => !(decide (e ∈ [e0])) && Fetch.is_weekly_friday e) = some w →
      (Fetch.select_expirations (e0 :: tl)).take 2 =
        [(lab0DTE, e0), (labWEEKLY, w)]) ∧
    ((e0 :: tl).find?
        (fun e => !(decide (e ∈ [e0])) && Fetch.is_weekly_friday e) = none →
      ∀ m, (e0 :: tl).find?
          (fun e => !(decide (e ∈ [e0])) && Fetch.is_monthly e) = some m →
        labWEEKLY ∉ (Fetch.select_expirations (e0 :: tl)).map Prod.fst) ∧
    ((e0 :: tl).find?
        (fun e => !(decide (e ∈ [e0])) && Fetch.is_weekly_friday e) = none →
      (e0 :: tl).find?
        (fun e => !(decide (e ∈ [e0])) && Fetch.is_monthly e) = none →
      ∀ f, (e0 :: tl).find?
          (fun e => !(decide (e ∈ [e0])) && Fetch.is_friday e) = some f →
        (Fetch.select_expirations (e0 :: tl)).take 2 =
          [(lab0DTE, e0), (labWEEKLY, f)]) ∧
    (∀ t tl2, tl = t :: tl2 → t ≠ e0 →
      (BackendM.select_expirations (e0 :: tl)).take 2 =
        [(lab0DTE, e0), (labWEEKLY, t)]) := by
  refine ⟨?_, ?_, ?_, ?_⟩
  · intro w hw
    rw [Fetch.select_expirations]
    have h2 := @selStep_some Fetch.is_weekly_friday labWEEKLY (e0 :: tl)
      ([(lab0DTE, e0)], [e0]) w hw
    rw [h2]
    rcases hm : (e0 :: tl).find?
        (fun e => !(decide (e ∈ ([e0] ++ [w]))) && Fetch.is_monthly e) with _ | m
    · have h3 := @selStep_none Fetch.is_monthly labMONTHLY (e0 :: tl)
        ([(lab0DTE, e0)] ++ [(labWEEKLY, w)], [e0] ++ [w]) hm
      rw [h3, selFallbackA_skip (by simp)]
      exact selFallbackB_take_two (by simp)
    · have h3 := @selStep_some Fetch.is_monthly labMONTHLY (e0 :: tl)
        ([(lab0DTE, e0)] ++ [(labWEEKLY, w)], [e0] ++ [w]) m hm
      rw [h3, selFallbackA_skip (by simp)]
      rw [Fetch.selFallbackB]
      norm_num
  · intro hw m hm
    rw [Fetch.select_expirations]
    have h2 := @selStep_none Fetch.is_weekly_friday labWEEKLY (e0 :: tl)
      ([(lab0DTE, e0)], [e0]) hw
    have h3 := @selStep_some Fetch.is_monthly labMONTHLY (e0 :: tl)
      ([(lab0DTE, e0)], [e0]) m hm
    rw [h2, h3, selFallbackA_skip (by simp)]
    rcases @selFallbackB_labels (e0 :: tl)
        (([(lab0DTE, e0)] ++ [(labMONTHLY, m)]), [e0] ++ [m]) with
      hcase | hcase <;>
    · rw [hcase]
      simp [lab0DTE, labWEEKLY, labMONTHLY]
  · intro hw hm f hf
    rw [Fetch.select_expirations]
    have h2 := @selStep_none Fetch.is_weekly_friday labWEEKLY (e0 :: tl)
      ([(lab0DTE, e0)], [e0]) hw
    have h3 := @selStep_none Fetch.is_monthly labMONTHLY (e0 :: tl)
      ([(lab0DTE, e0)], [e0]) hm
    rw [h2, h3]
    rw [Fetch.selFallbackA]
    rw [if_pos (by simp)]
    rw [hf]
    exact selFallbackB_take_two (by simp)
  · intro t tl2 htl hne
    subst htl
    rw [BackendM.select_expirations]
    have ht : (t :: tl2).find? (fun e => !(decide (e ∈ [e0]))) = some t := by
      simp [List.find?, hne]
    rw [ht]
    simp only
    rcases hm : (e0 :: t :: tl2).find?
        (fun e => BackendM.is_monthly e && !(decide (e ∈ ([e0] ++ [t])))) with _ | m
    · simp only
      rw [if_pos (by simp)]
      exact extraLoop_take_two _ _ _ _
    · simp only
      rw [if_neg (by simp)]
      simp

/-- C7 witness: the weekly-Friday clause of expiry_selection_rules applied
to a Monday followed by a plain Friday. -/
theorem expiry_selection_rules_witness :
    (Fetch.select_expirations [⟨0, 0, 9⟩, ⟨1, 4, 10⟩]).take 2 =
      [(lab0DTE, ⟨0, 0, 9⟩), (labWEEKLY, ⟨1, 4, 10⟩)] :=
  (expiry_selection_rules ⟨0, 0, 9⟩ [⟨1, 4, 10⟩]).1 ⟨1, 4, 10⟩ (by decide)

/-- C7 counterexample: on the ascending dates Monday(day 9), third Friday
(day 15) and a later third Friday (day 21), fetch_options_data's selector
finds no weekly Friday, selects the first third Friday as MONTHLY, and then
fallback B labels the remaining Friday MONTHLY as well: no WEEKLY entry is
inserted even though an unused plain Friday exists, contradicting the
claimed fallback A behaviour when a MONTHLY was already selected; and the
backend selector labels a Tuesday WEEKLY, contradicting the claimed Friday
requirement. -/
theorem expiry_selection_counterexample :
    Fetch.select_expirations
        [⟨0, 0, 9⟩, ⟨1, 4, 15⟩, ⟨2, 4, 21⟩] =
      [(lab0DTE, ⟨0, 0, 9⟩), (labMONTHLY, ⟨1, 4, 15⟩),
        (labMONTHLY, ⟨2, 4, 21⟩)] ∧
    labWEEKLY ∉ (Fetch.select_expirations
        [⟨0, 0, 9⟩, ⟨1, 4, 15⟩, ⟨2, 4, 21⟩]).map Prod.fst ∧
    Fetch.is_friday ⟨2, 4, 21⟩ = true ∧
    BackendM.select_expirations [⟨0, 0, 9⟩, ⟨1, 1, 10⟩] =
      [(lab0DTE, ⟨0, 0, 9⟩), (labWEEKLY, ⟨1, 1, 10⟩)] ∧
    Fetch.is_friday ⟨1, 1, 10⟩ = false := by
  refine ⟨by decide, by decide, by decide, by decide, by decide⟩

namespace Fetch

/-- The calculate_black_scholes_gamma function of fetch_options_data.py.
The explicit guard returns 0 when iv, T or spot is nonpositive; a
nonpositive strike makes math.log (for a negative ratio) or the division
(for strike zero) raise inside the try block and the except handler returns
0.0, which the second branch models.  Floats are modelled as exact reals,
so the result is total: the never-raises clause is the totality of this
function. -/
noncomputable def calculate_black_scholes_gamma
    (spot strike T r iv : ℝ) : ℝ :=
  if iv ≤ 0 ∨ T ≤ 0 ∨ spot ≤ 0 then 0
  else if strike ≤ 0 then 0
  else
    Real.exp (-0.5 *
        ((Real.log (spot / strike) + (r + 0.5 * iv ^ 2) * T) /
          (iv * Real.sqrt T)) ^ 2) /
      (spot * iv * Real.sqrt (2 * Real.pi * T))

end Fetch

namespace LocalSrv

/-- The standard normal density, the closed form behind the scipy norm.pdf
call in local_server.py. -/
noncomputable def normPdf (x : ℝ) : ℝ :=
  Real.exp (-(x ^ 2) / 2) / Real.sqrt (2 * Real.pi)

/-- The calculate_black_scholes_gamma function of local_server.py, with its
explicit guard on all four quantities. -/
noncomputable def calculate_black_scholes_gamma (S K T r sigma : ℝ) : ℝ :=
  if T ≤ 0 ∨ sigma ≤ 0 ∨ S ≤ 0 ∨ K ≤ 0 then 0
  else
    normPdf ((Real.log (S / K) + (r + 0.5 * sigma ^ 2) * T) /
        (sigma * Real.sqrt T)) /
      (S * sigma * Real.sqrt T)

end LocalSrv

/-- Generic form of the flip-search loops of both gamma-flip
implementations: walk adjacent pairs, stop at the first pair whose values
have strictly negative product and report out of that pair, else return the
default (the spot price). -/
noncomputable def pairScan {γ : Type} (val : γ → ℝ) (out : γ → γ → ℝ)
    (d : ℝ) : List γ → ℝ
  | a :: b :: rest =>
      if val a * val b < 0 then out a b else pairScan val out d (b :: rest)
  | _ => d

namespace LocalSrv

/-- The calculate_gex_per_strike function of local_server.py. -/
noncomputable def calculate_gex_per_strike (strike call_oi put_oi : ℚ)
    (spot T r : ℝ) (call_iv put_iv : ℚ) : ℝ :=
  ((if (0 : ℚ) < call_iv then
      calculate_black_scholes_gamma spot (strike : ℝ) T r (call_iv : ℝ)
    else 0) * (call_oi : ℝ) * 100 * spot * spot * 0.01 +
  -((if (0 : ℚ) < put_iv then
      calculate_black_scholes_gamma spot (strike : ℝ) T r (put_iv : ℝ)
    else 0) * (put_oi : ℝ) * 100 * spot * spot * 0.01)) / 1e9

/-- One GEXData entry of find_gamma_flip_strike. -/
structure GEXData where
  strike : ℚ
  gex : ℝ
  cumulative_gex : ℝ

/-- Ascending-strike order of sorted(strikes_data, key=strike). -/
def strikeAsc (a b : StrikeData) : Prop := a.strike ≤ b.strike

instance : DecidableRel strikeAsc := fun a b =>
  inferInstanceAs (Decidable (a.strike ≤ b.strike))

instance : IsTotal StrikeData strikeAsc := ⟨fun a b => le_total a.strike b.strike⟩

instance : IsTrans StrikeData strikeAsc := ⟨fun _ _ _ => le_trans⟩

/-- The per-strike gex of one strikes_data entry, with the .get defaults of
find_gamma_flip_strike (open interest 0, implied volatility 0.3). -/
noncomputable def rawGex (spot T r : ℝ) (s : StrikeData) : ℝ :=
  calculate_gex_per_strike s.strike (s.call_oi.getD 0) (s.put_oi.getD 0)
    spot T r (s.call_iv.getD 0.3) (s.put_iv.getD 0.3)

/-- The accumulation loop of find_gamma_flip_strike: the running cumulative
sum is kept unrounded, while each stored gex and cumulative value is rounded
to 6 decimals. -/
noncomputable def gexLoop (spot T r : ℝ) : List StrikeData → ℝ → List GEXData
  | [], _ => []
  | s :: rest, cum =>
      ⟨s.strike, roundr 6 (rawGex spot T r s),
        roundr 6 (cum + rawGex spot T r s)⟩ ::
        gexLoop spot T r rest (cum + rawGex spot T r s)

/-- The find_gamma_flip_strike function of local_server.py: sort the
strikes_data by strike, accumulate gex, and report the strike of the second
element of the first adjacent pair of rounded cumulative values with
negative product, defaulting to spot. -/
noncomputable def find_gamma_flip_strike (strikes_data : List StrikeData)
    (spot T r : ℝ) : ℝ × List GEXData :=
  (pairScan (fun g => g.cumulative_gex) (fun _ b => (b.strike : ℝ)) spot
    (gexLoop spot T r (List.insertionSort strikeAsc strikes_data) 0),
   gexLoop spot T r (List.insertionSort strikeAsc strikes_data) 0)

/-- The put/call ratio record of calculate_put_call_ratios. -/
structure PutCallRatios where
  oi_based : ℚ
  volume_based : ℚ
  weighted : ℚ
  delta_adjusted : ℚ

/-- The calculate_weighted_pcr function of local_server.py (note the
volume default of 1 used here). -/
def calculate_weighted_pcr (sd : List StrikeData) : ℚ :=
  let wp := (sd.map (fun s => s.put_oi.getD 0 * s.put_volume.getD 1)).sum
  let wc := (sd.map (fun s => s.call_oi.getD 0 * s.call_volume.getD 1)).sum
  if 0 < wc then wp / wc else 0

/-- The calculate_delta_adjusted_pcr function of local_server.py. -/
def calculate_delta_adjusted_pcr (sd : List StrikeData) (spot : ℚ) : ℚ :=
  let tp := ((sd.filter (fun s => decide (s.strike < spot))).map
    (fun s => min 1 (s.put_oi.getD 0 / 1000))).sum
  let tc := ((sd.filter (fun s => decide (spot < s.strike))).map
    (fun s => min 1 (s.call_oi.getD 0 / 1000))).sum
  if 0 < tc then tp / tc else 0

/-- The calculate_put_call_ratios function of local_server.py. -/
def calculate_put_call_ratios (sd : List StrikeData) (spot : ℚ) :
    PutCallRatios :=
  let tco := (sd.map (fun s => s.call_oi.getD 0)).sum
  let tpo := (sd.map (fun s => s.put_oi.getD 0)).sum
  let tcv := (sd.map (fun s => s.call_volume.getD 0)).sum
  let tpv := (sd.map (fun s => s.put_volume.getD 0)).sum
  { oi_based := if 0 < tco then roundq 3 (tpo / tco) else 0,
    volume_based := if 0 < tcv then roundq 3 (tpv / tcv) else 0,
    weighted := roundq 3 (calculate_weighted_pcr sd),
    delta_adjusted := roundq 3 (calculate_delta_adjusted_pcr sd spot) }

/-- The volatility-skew record of analyze_volatility_skew. -/
structure VolatilitySkew where
  put_iv_avg : ℚ
  call_iv_avg : ℚ
  skew_ratio : ℚ
  skew_type : String
  sentiment : String

/-- The analyze_volatility_skew function of local_server.py. -/
def analyze_volatility_skew (sd : List StrikeData) (spot : ℚ) :
    VolatilitySkew :=
  let otm_puts := sd.filter (fun s => decide (s.strike < spot * 0.95))
  let otm_calls := sd.filter (fun s => decide (spot * 1.05 < s.strike))
  let avg_put := if otm_puts = [] then 0
    else ((otm_puts.map (fun s => s.put_iv.getD 0)).sum) / otm_puts.length
  let avg_call := if otm_calls = [] then 0
    else ((otm_calls.map (fun s => s.call_iv.getD 0)).sum) / otm_calls.length
  let ratio := if 0 < avg_call then avg_put / avg_call else 1
  let cls := if 1.2 < ratio then (("smirk" : String), ("bearish" : String))
    else if ratio < 0.9 then (("reverse_smirk" : String), ("bullish" : String))
    else (("flat" : String), ("neutral" : String))
  { put_iv_avg := roundq 4 avg_put, call_iv_avg := roundq 4 avg_call,
    skew_ratio := roundq 3 ratio, skew_type := cls.1, sentiment := cls.2 }

/-- One row of the option chain as parsed in local_server.py
(process_option_chain); volume and openInterest may be missing. -/
structure OptionContract where
  strike : ℚ
  lastPrice : ℚ
  bid : ℚ
  ask : ℚ
  volume : Option ℚ
  openInterest : Option ℚ
  impliedVolatility : ℚ
  inTheMoney : Bool
deriving DecidableEq

/-- One iteration of the calls loop of calculate_quant_metrics: create the
entry holding only the strike if absent, then assign the call fields (the
Python or-with-0 maps a missing count to 0). -/
def smCallStep (m : List StrikeData) (c : OptionContract) : List StrikeData :=
  (if m.any (fun s => decide (s.strike = c.strike)) then m
    else m ++ [{ strike := c.strike }]).map
    (fun s => if s.strike = c.strike then
      { s with call_oi := some (c.openInterest.getD 0),
               call_volume := some (c.volume.getD 0),
               call_iv := some c.impliedVolatility }
      else s)

/-- One iteration of the puts loop of calculate_quant_metrics. -/
def smPutStep (m : List StrikeData) (c : OptionContract) : List StrikeData :=
  (if m.any (fun s => decide (s.strike = c.strike)) then m
    else m ++ [{ strike := c.strike }]).map
    (fun s => if s.strike = c.strike then
      { s with put_oi := some (c.openInterest.getD 0),
               put_volume := some (c.volume.getD 0),
               put_iv := some c.impliedVolatility }
      else s)

/-- The strikes_map construction of calculate_quant_metrics, in dict
insertion order: all calls first, then all puts. -/
def buildStrikesMap (calls puts : List OptionContract) : List StrikeData :=
  puts.foldl smPutStep (calls.foldl smCallStep [])

/-- The QuantMetrics record of local_server.py (the fields computed by
calculate_quant_metrics). -/
structure QuantMetrics where
  gamma_flip : ℝ
  total_gex : ℝ
  max_pain : ℚ
  put_call_ratios : PutCallRatios
  volatility_skew : VolatilitySkew
  gex_by_strike : List GEXData

/-- The calculate_quant_metrics function of local_server.py.  The source
computes the year fraction T from the expiry date and the ambient
datetime.now (floored at 0.0001); that ambient read is made an explicit T
parameter here, and the risk-free rate is the hard-coded 0.05. -/
noncomputable def calculate_quant_metrics (calls puts : List OptionContract)
    (spot : ℚ) (T : ℝ) : QuantMetrics :=
  let sd := buildStrikesMap calls puts
  { gamma_flip := roundr 2 (find_gamma_flip_strike sd (spot : ℝ) T 0.05).1,
    total_gex := roundr 4
      (((find_gamma_flip_strike sd (spot : ℝ) T 0.05).2.map
        (fun g => g.gex)).sum),
    max_pain := roundq 2 (calculate_max_pain sd spot),
    put_call_ratios := calculate_put_call_ratios sd spot,
    volatility_skew := analyze_volatility_skew sd spot,
    gex_by_strike := (find_gamma_flip_strike sd (spot : ℝ) T 0.05).2.take 50 }

end LocalSrv

namespace Fetch

/-- Per-strike bucket of calculate_gamma_flip in fetch_options_data.py,
initialised with open interest 0 and implied volatility 0.3. -/
structure FlipBucket where
  call_oi : ℚ
  put_oi : ℚ
  call_iv : ℚ
  put_iv : ℚ
deriving DecidableEq

/-- Branch body of the grouping loop of calculate_gamma_flip: a CALL
assigns call_oi and call_iv, anything else assigns put_oi and put_iv. -/
def flipUpd (o : Opt) (b : FlipBucket) : FlipBucket :=
  match o.side with
  | Side.CALL => { b with call_oi := o.oi, call_iv := o.iv }
  | Side.PUT => { b with put_oi := o.oi, put_iv := o.iv }

/-- One iteration of the grouping loop of calculate_gamma_flip. -/
def flipStep (m : List (ℚ × FlipBucket)) (o : Opt) : List (ℚ × FlipBucket) :=
  if o.strike ≤ 0 then m
  else dictUpd (dictSetD m o.strike ⟨0, 0, 0.3, 0.3⟩) o.strike (flipUpd o)

/-- The strikes_data dict of calculate_gamma_flip. -/
def flipBuckets (options : List Opt) : List (ℚ × FlipBucket) :=
  options.foldl flipStep []

/-- The per-strike gex term of calculate_gamma_flip: call gamma positive,
put gamma negative, scaled by OI, the 100 multiplier, spot squared and the
0.01 factor, in billions. -/
noncomputable def bucketGex (spot T r : ℝ) (k : ℚ) (b : FlipBucket) : ℝ :=
  (calculate_black_scholes_gamma spot (k : ℝ) T r (b.call_iv : ℝ) *
      (b.call_oi : ℝ) * 100 * spot * spot * 0.01 +
    -(calculate_black_scholes_gamma spot (k : ℝ) T r (b.put_iv : ℝ) *
      (b.put_oi : ℝ) * 100 * spot * spot * 0.01)) / 1e9

/-- The cumulative-sum walk of calculate_gamma_flip: (strike, running
cumulative gex) in ascending strike order, unrounded. -/
noncomputable def cumWalk (f : ℚ → ℝ) : List ℚ → ℝ → List (ℚ × ℝ)
  | [], _ => []
  | k :: rest, acc => (k, acc + f k) :: cumWalk f rest (acc + f k)

/-- The (strike, cumulative gex) list of calculate_gamma_flip over the
sorted bucket keys. -/
noncomputable def flipCumList (options : List Opt) (spot T r : ℝ) :
    List (ℚ × ℝ) :=
  cumWalk
    (fun k => bucketGex spot T r k (dictGet (flipBuckets options) k ⟨0, 0, 0.3, 0.3⟩))
    (List.insertionSort (· ≤ ·) ((flipBuckets options).map Prod.fst)) 0

/-- The calculate_gamma_flip function of fetch_options_data.py: on the
first adjacent pair of unrounded cumulative values with negative product it
reports the midpoint of the two bracketing strikes; the fallback is spot;
the returned value is rounded to 2 decimals in all cases. -/
noncomputable def calculate_gamma_flip (options : List Opt) (spot T r : ℝ) : ℝ :=
  if flipBuckets options = [] then roundr 2 spot
  else roundr 2 (pairScan (fun pr => pr.2)
    (fun a b => ((a.1 : ℝ) + (b.1 : ℝ)) / 2) spot (flipCumList options spot T r))

end Fetch

lemma pairScan_of_chain {γ : Type} (val : γ → ℝ) (out : γ → γ → ℝ) (d : ℝ) :
    ∀ l : List γ, List.Chain' (fun a b => 0 ≤ val a * val b) l →
      pairScan val out d l = d := by
  intro l
  induction l with
  | nil => intro _; rfl
  | cons a rest ih =>
    intro h
    cases rest with
    | nil => rfl
    | cons b rest2 =>
      rcases List.chain'_cons.mp h with ⟨hab, htl⟩
      simp only [pairScan]
      rw [if_neg (not_lt.mpr hab)]
      exact ih htl

lemma pairScan_first {γ : Type} (val : γ → ℝ) (out : γ → γ → ℝ) (d : ℝ) :
    ∀ (pre : List γ) (a b : γ) (post : List γ),
      List.Chain' (fun x y => 0 ≤ val x * val y) (pre ++ [a]) →
      val a * val b < 0 →
      pairScan val out d (pre ++ a :: b :: post) = out a b := by
  intro pre
  induction pre with
  | nil =>
    intro a b post _ hab
    simp only [List.nil_append, pairScan]
    rw [if_pos hab]
  | cons x pre2 ih =>
    intro a b post hchain hab
    cases pre2 with
    | nil =>
      have hxa : 0 ≤ val x * val a := by simpa using hchain
      simp only [List.cons_append, List.nil_append, pairScan]
      rw [if_neg (not_lt.mpr hxa), if_pos hab]
    | cons y pre3 =>
      have hchain2 : 0 ≤ val x * val y ∧
          List.Chain' (fun u v => 0 ≤ val u * val v) (y :: (pre3 ++ [a])) := by
        simpa using hchain
      simp only [List.cons_append, pairScan]
      rw [if_neg (not_lt.mpr hchain2.1)]
      exact ih a b post (by simpa using hchain2.2) hab

lemma gexLoop_map_gex (spot T r : ℝ) :
    ∀ (l : List LocalSrv.StrikeData) (acc : ℝ),
      (LocalSrv.gexLoop spot T r l acc).map (fun g => g.gex) =
        l.map (fun s => roundr 6 (LocalSrv.rawGex spot T r s)) := by
  intro l
  induction l with
  | nil => intro acc; rfl
  | cons s rest ih =>
    intro acc
    simp only [LocalSrv.gexLoop, List.map_cons, ih]

lemma gexLoop_last_cum (spot T r : ℝ) :
    ∀ (l : List LocalSrv.StrikeData) (acc : ℝ) (d : LocalSrv.GEXData),
      l ≠ [] →
      ((LocalSrv.gexLoop spot T r l acc).getLastD d).cumulative_gex =
        roundr 6 (acc + (l.map (LocalSrv.rawGex spot T r)).sum) := by
  intro l
  induction l with
  | nil => intro acc d h; exact absurd rfl h
  | cons s rest ih =>
    intro acc d _
    cases rest with
    | nil => simp [LocalSrv.gexLoop]
    | cons s2 rest2 =>
      have hne : s2 :: rest2 ≠ [] := by simp
      rw [show LocalSrv.gexLoop spot T r (s :: s2 :: rest2) acc =
          ⟨s.strike, roundr 6 (LocalSrv.rawGex spot T r s),
            roundr 6 (acc + LocalSrv.rawGex spot T r s)⟩ ::
          LocalSrv.gexLoop spot T r (s2 :: rest2)
            (acc + LocalSrv.rawGex spot T r s) from rfl]
      rw [List.getLastD_cons]
      rw [ih (acc + LocalSrv.rawGex spot T r s) _ hne]
      congr 1
      simp only [List.map_cons, List.sum_cons]
      ring

lemma insertionSort_ne_nil {α : Type} (r : α → α → Prop) [DecidableRel r]
    {l : List α} (h : l ≠ []) : List.insertionSort r l ≠ [] := by
  intro hnil
  have hperm := List.perm_insertionSort r l
  rw [hnil] at hperm
  exact h hperm.symm.eq_nil

/-- C4 (amended): in find_gamma_flip_strike the running cumulative total is
drift-free in the exact sense: the last entry of the per-strike GEX list
holds the 6-decimal rounding of the exact sum of all unrounded per-strike
gex values, and the stored per-strike gex values are those unrounded values
rounded to 6 decimals; the totalGEX reported by calculate_quant_metrics is
the 4-decimal rounding of the sum of those individually rounded per-strike
values, which need not equal the last entry's cumulativeGEX. -/
theorem totalGEX_cumulative (sd : List LocalSrv.StrikeData)
    (calls puts : List LocalSrv.OptionContract) (spot : ℚ) (spotR T r : ℝ) :
    (sd ≠ [] →
      (((LocalSrv.find_gamma_flip_strike sd spotR T r).2.getLastD
          ⟨0, 0, 0⟩).cumulative_gex =
        roundr 6 (((List.insertionSort LocalSrv.strikeAsc sd).map
          (LocalSrv.rawGex spotR T r)).sum))) ∧
    ((LocalSrv.find_gamma_flip_strike sd spotR T r).2.map (fun g => g.gex) =
      (List.insertionSort LocalSrv.strikeAsc sd).map
        (fun s => roundr 6 (LocalSrv.rawGex spotR T r s))) ∧
    ((LocalSrv.calculate_quant_metrics calls puts spot T).total_gex =
      roundr 4 (((LocalSrv.find_gamma_flip_strike
        (LocalSrv.buildStrikesMap calls puts) (spot : ℝ) T 0.05).2.map
          (fun g => g.gex)).sum)) := by
  refine ⟨?_, ?_, rfl⟩
  · intro h
    have hs : List.insertionSort LocalSrv.strikeAsc sd ≠ [] :=
      insertionSort_ne_nil _ h
    simp only [LocalSrv.find_gamma_flip_strike]
    rw [gexLoop_last_cum spotR T r _ 0 _ hs, zero_add]
  · simp only [LocalSrv.find_gamma_flip_strike]
    exact gexLoop_map_gex spotR T r _ 0

/-- C4 witness: totalGEX_cumulative applied to the single-strike bucket
list at strike 100 with spot 100. -/
theorem totalGEX_cumulative_witness :
    (((LocalSrv.find_gamma_flip_strike [{ strike := 100 }] 100 1 0.05).2.getLastD
        ⟨0, 0, 0⟩).cumulative_gex =
      roundr 6 (((List.insertionSort LocalSrv.strikeAsc
        [{ strike := 100 }]).map (LocalSrv.rawGex 100 1 0.05)).sum)) :=
  (totalGEX_cumulative [{ strike := 100 }] [] [] 100 100 1 0.05).1 (by simp)

lemma sqrt_two_pi_bounds :
    (2.5 : ℝ) < Real.sqrt (2 * Real.pi) ∧ Real.sqrt (2 * Real.pi) < 2.51 := by
  have hl := Real.pi_gt_314
  have hu := Real.pi_lt_315
  constructor
  · rw [show (2.5 : ℝ) = 2.5 from rfl]
    have : (2.5 : ℝ) ^ 2 < 2 * Real.pi := by nlinarith
    exact (Real.lt_sqrt (by positivity)).mpr this
  · have : 2 * Real.pi < (2.51 : ℝ) ^ 2 := by nlinarith
    exact (Real.sqrt_lt' (by norm_num)).mpr this

lemma exp_neg_ge (x : ℝ) : 1 - x ≤ Real.exp (-x) := by
  have := Real.add_one_le_exp (-x)
  linarith

lemma exp_neg_le (x : ℝ) (hx : 0 ≤ x) : Real.exp (-x) ≤ 1 / (1 + x) := by
  have h := Real.add_one_le_exp x
  rw [Real.exp_neg, one_div]
  exact inv_le_inv_of_le (by linarith) (by linarith)

lemma log_100_101_bounds :
    -(0.01 : ℝ) ≤ Real.log (100 / 101) ∧ Real.log (100 / 101) ≤ -0.0099 := by
  have hpos : (0 : ℝ) < 100 / 101 := by norm_num
  have hub := Real.log_le_sub_one_of_pos hpos
  have hpos2 : (0 : ℝ) < 101 / 100 := by norm_num
  have hub2 := Real.log_le_sub_one_of_pos hpos2
  have hinv : Real.log ((100 : ℝ) / 101) = -Real.log (101 / 100) := by
    rw [show ((100 : ℝ) / 101) = ((101 : ℝ) / 100)⁻¹ by norm_num, Real.log_inv]
  constructor
  · rw [hinv]
    have : Real.log ((101 : ℝ) / 100) ≤ 0.01 := by
      calc Real.log ((101 : ℝ) / 100) ≤ 101 / 100 - 1 := hub2
        _ ≤ 0.01 := by norm_num
    linarith
  · calc Real.log ((100 : ℝ) / 101) ≤ 100 / 101 - 1 := hub
      _ ≤ -0.0099 := by norm_num

lemma cbsg_100_bounds :
    (0.00338 : ℝ) ≤ LocalSrv.calculate_black_scholes_gamma 100 100 1 0.05 1 ∧
    LocalSrv.calculate_black_scholes_gamma 100 100 1 0.05 1 ≤ 0.003475 := by
  have hval : LocalSrv.calculate_black_scholes_gamma 100 100 1 0.05 1 =
      Real.exp (-(0.15125 : ℝ)) / Real.sqrt (2 * Real.pi) / 100 := by
    rw [LocalSrv.calculate_black_scholes_gamma, if_neg (by norm_num),
      LocalSrv.normPdf]
    rw [show ((100 : ℝ) / 100) = 1 by norm_num, Real.log_one, Real.sqrt_one]
    norm_num
  rcases sqrt_two_pi_bounds with ⟨hsl, hsu⟩
  have hsp : (0 : ℝ) < Real.sqrt (2 * Real.pi) := by linarith
  have hel : (0.84875 : ℝ) ≤ Real.exp (-(0.15125 : ℝ)) := by
    have := exp_neg_ge (0.15125 : ℝ)
    linarith
  have heu : Real.exp (-(0.15125 : ℝ)) ≤ 0.86863 := by
    have := exp_neg_le (0.15125 : ℝ) (by norm_num)
    calc Real.exp (-(0.15125 : ℝ)) ≤ 1 / (1 + 0.15125) := this
      _ ≤ 0.86863 := by norm_num
  rw [hval, div_div]
  constructor
  · rw [le_div_iff (by positivity)]
    nlinarith
  · rw [div_le_iff (by positivity)]
    nlinarith

lemma cbsg_101_lb :
    (0.0034 : ℝ) ≤ LocalSrv.calculate_black_scholes_gamma 100 101 1 0.05 1 := by
  have hval : LocalSrv.calculate_black_scholes_gamma 100 101 1 0.05 1 =
      Real.exp (-((Real.log (100 / 101) + 0.55) ^ 2) / 2) /
        Real.sqrt (2 * Real.pi) / 100 := by
    rw [LocalSrv.calculate_black_scholes_gamma, if_neg (by norm_num),
      LocalSrv.normPdf]
    rw [Real.sqrt_one]
    norm_num
  rcases log_100_101_bounds with ⟨hll, hlu⟩
  rcases sqrt_two_pi_bounds with ⟨hsl, hsu⟩
  have hsp : (0 : ℝ) < Real.sqrt (2 * Real.pi) := by linarith
  have hd1 : (0.54 : ℝ) ≤ Real.log (100 / 101) + 0.55 := by linarith
  have hd2 : Real.log (100 / 101) + 0.55 ≤ 0.5401 := by linarith
  have hsq : (Real.log (100 / 101) + 0.55) ^ 2 ≤ 0.29171 := by nlinarith
  have hexp : (0.8541 : ℝ) ≤
      Real.exp (-((Real.log (100 / 101) + 0.55) ^ 2) / 2) := by
    have hmono : (-(0.145855 : ℝ)) ≤
        -((Real.log (100 / 101) + 0.55) ^ 2) / 2 := by linarith
    have h1 : Real.exp (-(0.145855 : ℝ)) ≤
        Real.exp (-((Real.log (100 / 101) + 0.55) ^ 2) / 2) :=
      Real.exp_le_exp.mpr hmono
    have h2 := exp_neg_ge (0.145855 : ℝ)
    linarith
  rw [hval, div_div, le_div_iff (by positivity)]
  nlinarith

lemma roundr_band_facts {x : ℝ} (h1 : (0.0000676 : ℝ) ≤ x)
    (h2 : x ≤ 0.0000695) :
    roundr 4 (roundr 6 x) ≠ roundr 6 x ∧ 0 < roundr 6 x := by
  have hn1 : (68 : ℤ) ≤ round (x * 10 ^ 6) := by
    rw [round_eq]
    apply Int.le_floor.mpr
    push_cast
    nlinarith
  have hn2 : round (x * 10 ^ 6) ≤ 70 := by
    rw [round_eq]
    have : ⌊x * 10 ^ 6 + 1 / 2⌋ < 71 := by
      apply Int.floor_lt.mpr
      push_cast
      nlinarith
    omega
  set n : ℤ := round (x * 10 ^ 6) with hn
  have hr6 : roundr 6 x = (n : ℝ) / 10 ^ 6 := rfl
  have hcast1 : (68 : ℝ) ≤ (n : ℝ) := by exact_mod_cast hn1
  have hcast2 : (n : ℝ) ≤ 70 := by exact_mod_cast hn2
  have hinner : roundr 6 x * 10 ^ 4 = (n : ℝ) / 100 := by
    rw [hr6]; ring
  have hm : round (roundr 6 x * 10 ^ 4) = 1 := by
    rw [hinner, round_eq]
    have hlb : (1 : ℤ) ≤ ⌊(n : ℝ) / 100 + 1 / 2⌋ := by
      apply Int.le_floor.mpr
      push_cast
      nlinarith
    have hub : ⌊(n : ℝ) / 100 + 1 / 2⌋ < 2 := by
      apply Int.floor_lt.mpr
      push_cast
      nlinarith
    omega
  have hr4 : roundr 4 (roundr 6 x) = 1 / 10 ^ 4 := by
    rw [roundr, hm]
    norm_num
  constructor
  · rw [hr4, hr6]
    intro hcontra
    have : (n : ℝ) = 100 := by
      field_simp at hcontra
      linarith
    linarith
  · rw [hr6]
    positivity

lemma roundr6_neg {x : ℝ} (h : x ≤ -0.001) : roundr 6 x < 0 := by
  have hfl : ((⌊x * 10 ^ 6 + 1 / 2⌋ : ℤ) : ℝ) ≤ x * 10 ^ 6 + 1 / 2 :=
    Int.floor_le _
  have : roundr 6 x = ((⌊x * 10 ^ 6 + 1 / 2⌋ : ℤ) : ℝ) / 10 ^ 6 := by
    rw [roundr, round_eq]
  rw [this]
  have hx : x * 10 ^ 6 + 1 / 2 ≤ -999.5 := by nlinarith
  have : ((⌊x * 10 ^ 6 + 1 / 2⌋ : ℤ) : ℝ) ≤ -999.5 := le_trans hfl hx
  nlinarith

/-- C1 (amended): when no adjacent pair of cumulative values has strictly
negative product, find_gamma_flip_strike returns spot exactly and
calculate_gamma_flip returns spot rounded to 2 decimals; at the first
adjacent sign change, find_gamma_flip_strike (local_server.py, comparing
6-decimal-rounded cumulative values) reports the upper bracketing strike
itself, while calculate_gamma_flip (fetch_options_data.py, comparing
unrounded cumulative values) reports the midpoint of the two bracketing
strikes rounded to 2 decimals. -/
theorem gammaFlip_report (sd : List LocalSrv.StrikeData) (options : List Opt)
    (spot T r : ℝ) :
    (List.Chain' (fun a b : LocalSrv.GEXData =>
        0 ≤ a.cumulative_gex * b.cumulative_gex)
        ((LocalSrv.find_gamma_flip_strike sd spot T r).2) →
      (LocalSrv.find_gamma_flip_strike sd spot T r).1 = spot) ∧
    (∀ (pre : List LocalSrv.GEXData) (a b : LocalSrv.GEXData)
        (post : List LocalSrv.GEXData),
      (LocalSrv.find_gamma_flip_strike sd spot T r).2 = pre ++ a :: b :: post →
      List.Chain' (fun x y => 0 ≤ x.cumulative_gex * y.cumulative_gex)
        (pre ++ [a]) →
      a.cumulative_gex * b.cumulative_gex < 0 →
      (LocalSrv.find_gamma_flip_strike sd spot T r).1 = (b.strike : ℝ)) ∧
    (List.Chain' (fun x y : ℚ × ℝ => 0 ≤ x.2 * y.2)
        (Fetch.flipCumList options spot T r) →
      Fetch.calculate_gamma_flip options spot T r = roundr 2 spot) ∧
    (∀ (pre : List (ℚ × ℝ)) (a b : ℚ × ℝ) (post : List (ℚ × ℝ)),
      Fetch.flipCumList options spot T r = pre ++ a :: b :: post →
      List.Chain' (fun x y => 0 ≤ x.2 * y.2) (pre ++ [a]) →
      a.2 * b.2 < 0 →
      Fetch.calculate_gamma_flip options spot T r =
        roundr 2 (((a.1 : ℝ) + (b.1 : ℝ)) / 2)) := by
  refine ⟨?_, ?_, ?_, ?_⟩
  · intro h
    exact pairScan_of_chain _ _ spot _ h
  · intro pre a b post heq hchain hab
    show pairScan (fun g => g.cumulative_gex) (fun _ b => (b.strike : ℝ)) spot
      ((LocalSrv.find_gamma_flip_strike sd spot T r).2) = _
    rw [heq]
    exact pairScan_first _ _ spot pre a b post hchain hab
  · intro h
    by_cases hb : Fetch.flipBuckets options = []
    · rw [Fetch.calculate_gamma_flip, if_pos hb]
    · rw [Fetch.calculate_gamma_flip, if_neg hb]
      rw [pairScan_of_chain _ _ spot _ h]
  · intro pre a b post heq hchain hab
    by_cases hb : Fetch.flipBuckets options = []
    · exfalso
      rw [Fetch.flipCumList, hb] at heq
      simp [Fetch.cumWalk] at heq
    · rw [Fetch.calculate_gamma_flip, if_neg hb, heq]
      rw [pairScan_first _ _ spot pre a b post hchain hab]

/-- C1 witness: the no-sign-change clause of gammaFlip_report at the empty
strikes_data list, where the cumulative list is empty. -/
theorem gammaFlip_report_witness :
    (LocalSrv.find_gamma_flip_strike [] 5 1 0.05).1 = 5 :=
  (gammaFlip_report [] [] 5 1 0.05).1 (by
    show List.Chain' _
      (LocalSrv.gexLoop 5 1 0.05 (List.insertionSort LocalSrv.strikeAsc []) 0)
    simp [LocalSrv.gexLoop, List.insertionSort])

/-- Concrete call-side strike bucket (strike 100, call OI 2000, call IV 1)
used in the gamma-flip and totalGEX analyses. -/
def sdCall100 : LocalSrv.StrikeData :=
  { strike := 100, call_oi := some 2000, call_volume := some 0,
    call_iv := some 1 }

/-- Concrete put-side strike bucket (strike 101, put OI 1000000, put IV 1)
used in the gamma-flip analysis. -/
def sdPut101 : LocalSrv.StrikeData :=
  { strike := 101, put_oi := some 1000000, put_volume := some 0,
    put_iv := some 1 }

/-- Concrete call contract matching sdCall100, as handed to
calculate_quant_metrics. -/
def ocCall100 : LocalSrv.OptionContract :=
  { strike := 100, lastPrice := 0, bid := 0, ask := 0, volume := some 0,
    openInterest := some 2000, impliedVolatility := 1, inTheMoney := false }

lemma rawGex_sdCall100 : LocalSrv.rawGex 100 1 0.05 sdCall100 =
    LocalSrv.calculate_black_scholes_gamma 100 100 1 0.05 1 * 0.02 := by
  rw [LocalSrv.rawGex, sdCall100]
  simp only [Option.getD_some, Option.getD_none]
  rw [LocalSrv.calculate_gex_per_strike,
    if_pos (by norm_num : (0 : ℚ) < 1),
    if_pos (by norm_num : (0 : ℚ) < 0.3)]
  push_cast
  ring

lemma rawGex_sdPut101 : LocalSrv.rawGex 100 1 0.05 sdPut101 =
    -(LocalSrv.calculate_black_scholes_gamma 100 101 1 0.05 1 * 10) := by
  rw [LocalSrv.rawGex, sdPut101]
  simp only [Option.getD_some, Option.getD_none]
  rw [LocalSrv.calculate_gex_per_strike,
    if_pos (by norm_num : (0 : ℚ) < 0.3),
    if_pos (by norm_num : (0 : ℚ) < 1)]
  push_cast
  ring

/-- C1 counterexample: on the two buckets sdCall100 (strike 100, call OI
2000, call IV 1) and sdPut101 (strike 101, put OI 1000000, put IV 1) at
spot 100, T one year, rate 0.05, the rounded cumulative curve is positive
then negative, and find_gamma_flip_strike reports 101, the upper bracketing
strike, not the claimed rounded midpoint 100.5 of the bracketing strikes;
and on a chain with no sign change at spot 100.004, calculate_gamma_flip
returns the rounded 100, not the spot price exactly. -/
theorem gammaFlip_midpoint_counterexample :
    (LocalSrv.find_gamma_flip_strike [sdCall100, sdPut101] 100 1 0.05).1 =
      101 ∧
    (101 : ℝ) ≠ roundr 2 ((100 + 101) / 2) ∧
    Fetch.calculate_gamma_flip
      [{ strike := 100, side := Side.CALL, iv := 1, oi := 0, vol := 0 }]
      100.004 1 0.05 = 100 ∧
    (100 : ℝ) ≠ 100.004 := by
  rcases cbsg_100_bounds with ⟨hcl, hcu⟩
  have hpg := cbsg_101_lb
  have hband := roundr_band_facts
    (x := LocalSrv.calculate_black_scholes_gamma 100 100 1 0.05 1 * 0.02)
    (by nlinarith) (by nlinarith)
  refine ⟨?_, ?_, ?_, by norm_num⟩
  · simp only [LocalSrv.find_gamma_flip_strike]
    have hsort : List.insertionSort LocalSrv.strikeAsc [sdCall100, sdPut101] =
        [sdCall100, sdPut101] := by
      norm_num [List.insertionSort, List.orderedInsert, LocalSrv.strikeAsc,
        sdCall100, sdPut101]
    rw [hsort]
    have hc1 : 0 < roundr 6 (0 + LocalSrv.rawGex 100 1 0.05 sdCall100) := by
      rw [zero_add, rawGex_sdCall100]
      exact hband.2
    have hc2 : roundr 6 ((0 + LocalSrv.rawGex 100 1 0.05 sdCall100) +
        LocalSrv.rawGex 100 1 0.05 sdPut101) < 0 := by
      rw [zero_add, rawGex_sdCall100, rawGex_sdPut101]
      apply roundr6_neg
      nlinarith
    simp only [LocalSrv.gexLoop, pairScan]
    rw [if_pos (mul_neg_of_pos_of_neg hc1 hc2)]
    rw [sdPut101]
    norm_num
  · rw [show ((100 : ℝ) + 101) / 2 = 100.5 by norm_num]
    rw [roundr, round_eq]
    rw [show (100.5 : ℝ) * 10 ^ 2 + 1 / 2 = 10050.5 by norm_num]
    rw [show ⌊(10050.5 : ℝ)⌋ = 10050 from
      Int.floor_eq_iff.mpr (by norm_num)]
    norm_num
  · have hbuck : Fetch.flipBuckets
        [{ strike := 100, side := Side.CALL, iv := 1, oi := 0, vol := 0 }] =
        [(100, ⟨0, 0, 1, 0.3⟩)] := by
      rw [show Fetch.flipBuckets
          [{ strike := 100, side := Side.CALL, iv := 1, oi := 0, vol := 0 }] =
        Fetch.flipStep []
          { strike := 100, side := Side.CALL, iv := 1, oi := 0, vol := 0 }
        from rfl]
      rw [Fetch.flipStep, if_neg (by norm_num : ¬ (100 : ℚ) ≤ 0)]
      rw [dictSetD]
      norm_num [dictHas, dictUpd, Fetch.flipUpd]
    rw [Fetch.calculate_gamma_flip, if_neg (by rw [hbuck]; simp)]
    rw [Fetch.flipCumList, hbuck]
    simp only [List.map_cons, List.map_nil, List.insertionSort,
      List.orderedInsert, Fetch.cumWalk]
    rw [show pairScan (fun pr : ℚ × ℝ => pr.2)
        (fun a b => ((a.1 : ℝ) + (b.1 : ℝ)) / 2) (100.004 : ℝ)
        [(100, 0 + Fetch.bucketGex (100.004 : ℝ) 1 0.05 100
          (dictGet [(100, ⟨0, 0, 1, 0.3⟩)] 100 ⟨0, 0, 0.3, 0.3⟩))] =
        (100.004 : ℝ) from rfl]
    rw [roundr, round_eq]
    rw [show (100.004 : ℝ) * 10 ^ 2 + 1 / 2 = 10000.9 by norm_num]
    rw [show ⌊(10000.9 : ℝ)⌋ = 10000 from Int.floor_eq_iff.mpr (by norm_num)]
    norm_num

/-- C4 counterexample: on the single-call chain ocCall100 (strike 100, open
interest 2000, implied volatility 1) at spot 100 and T one year, the single
per-strike gex value lies strictly between 0.0000676 and 0.0000695, so the
reported totalGEX (rounded to 4 decimals, 0.0001) differs from the last
cumulativeGEX (rounded to 6 decimals, at most 0.00007): the claimed exact
equality fails. -/
theorem totalGEX_drift_counterexample :
    (LocalSrv.calculate_quant_metrics [ocCall100] [] 100 1).total_gex ≠
    ((LocalSrv.calculate_quant_metrics [ocCall100] []
        100 1).gex_by_strike.getLastD ⟨0, 0, 0⟩).cumulative_gex := by
  have hsd : LocalSrv.buildStrikesMap [ocCall100] [] = [sdCall100] := by
    show LocalSrv.smCallStep [] ocCall100 = _
    rw [LocalSrv.smCallStep, ocCall100, sdCall100]
    norm_num
  rcases cbsg_100_bounds with ⟨hcl, hcu⟩
  have hband := roundr_band_facts
    (x := LocalSrv.calculate_black_scholes_gamma 100 100 1 0.05 1 * 0.02)
    (by nlinarith) (by nlinarith)
  rw [LocalSrv.calculate_quant_metrics]
  simp only [LocalSrv.find_gamma_flip_strike, hsd]
  simp only [List.insertionSort, List.orderedInsert, LocalSrv.gexLoop,
    List.take, List.map_cons, List.map_nil, List.sum_cons, List.sum_nil,
    List.getLastD_cons, List.getLastD_nil]
  push_cast
  rw [zero_add, add_zero]
  rw [rawGex_sdCall100]
  exact hband.1

lemma find?_map_keyfix {α : Type} (p : α → Bool) (f : α → α)
    (hp : ∀ a, p (f a) = p a) :
    ∀ l : List α, (l.map f).find? p = (l.find? p).map f := by
  intro l
  induction l with
  | nil => rfl
  | cons a t ih =>
    simp only [List.map_cons]
    cases hpa : p a
    · rw [List.find?_cons_of_neg _ (by rw [hp a, hpa]; simp),
        List.find?_cons_of_neg _ (by rw [hpa]; simp)]
      exact ih
    · rw [List.find?_cons_of_pos _ (by rw [hp a, hpa]),
        List.find?_cons_of_pos _ hpa]
      rfl

/-- Lookup in a strike-keyed association list (Python dict access). -/
def lookupQ {β : Type} (m : List (ℚ × β)) (k : ℚ) : Option β :=
  (m.find? (fun pr => decide (pr.1 = k))).map Prod.snd

/-- Generic shape of one grouping-loop iteration of calculate_gamma_flip
and calculate_max_pain: skip nonpositive strikes, install the default
bucket on first sight of a strike, then assign through upd. -/
def genStep {β : Type} (init : β) (upd : Opt → β → β)
    (m : List (ℚ × β)) (o : Opt) : List (ℚ × β) :=
  if o.strike ≤ 0 then m
  else dictUpd (dictSetD m o.strike init) o.strike (upd o)

lemma lookupQ_upd_set {β : Type} (m : List (ℚ × β)) (k : ℚ) (v : β)
    (f : β → β) :
    lookupQ (dictUpd (dictSetD m k v) k f) k =
      some (f ((lookupQ m k).getD v)) := by
  have hp : ∀ pr : ℚ × β,
      (fun pr : ℚ × β => decide (pr.1 = k))
        (if pr.1 = k then (pr.1, f pr.2) else pr) = decide (pr.1 = k) := by
    intro pr
    by_cases h : pr.1 = k <;> simp [h]
  rw [lookupQ, dictUpd, find?_map_keyfix _ _ hp, dictSetD]
  by_cases hhas : dictHas m k
  · rw [if_pos hhas]
    have hex : ∃ pr ∈ m, decide (pr.1 = k) = true := by
      simpa [dictHas, List.any_eq_true] using hhas
    obtain ⟨pr1, hf⟩ := Option.isSome_iff_exists.mp (List.find?_isSome.mpr hex)
    have hk1 : pr1.1 = k := by simpa using List.find?_some hf
    rw [hf]
    simp [lookupQ, hf, hk1]
  · rw [if_neg hhas]
    have hnone : m.find? (fun pr => decide (pr.1 = k)) = none := by
      rw [List.find?_eq_none]
      intro pr hm
      simp only [dictHas, List.any_eq_true] at hhas
      push_neg at hhas
      simpa using hhas pr hm
    rw [List.find?_append, hnone]
    simp [lookupQ, hnone]

lemma lookupQ_genStep_other {β : Type} (init : β) (upd : Opt → β → β)
    (m : List (ℚ × β)) (o : Opt) (k : ℚ) (hne : o.strike ≠ k) :
    lookupQ (genStep init upd m o) k = lookupQ m k := by
  rw [genStep]
  by_cases hskip : o.strike ≤ 0
  · rw [if_pos hskip]
  · rw [if_neg hskip]
    have hp : ∀ pr : ℚ × β,
        (fun pr : ℚ × β => decide (pr.1 = k))
          (if pr.1 = o.strike then (pr.1, upd o pr.2) else pr) =
          decide (pr.1 = k) := by
      intro pr
      by_cases h : pr.1 = o.strike <;> simp [h]
    rw [lookupQ, dictUpd, find?_map_keyfix _ _ hp, dictSetD]
    by_cases hhas : dictHas m o.strike
    · rw [if_pos hhas]
      cases hf : m.find? (fun pr => decide (pr.1 = k)) with
      | none => simp [lookupQ, hf]
      | some pr1 =>
        have hk1 : pr1.1 = k := by simpa using List.find?_some hf
        have : ¬ pr1.1 = o.strike := by rw [hk1]; exact fun h => hne h.symm
        simp [lookupQ, hf, this]
    · rw [if_neg hhas]
      rw [List.find?_append]
      have h2 : ([(o.strike, init)].find? (fun pr => decide (pr.1 = k))) = none := by
        simp [List.find?, hne]
      rw [h2]
      cases hf : m.find? (fun pr => decide (pr.1 = k)) with
      | none => simp [lookupQ, hf]
      | some pr1 =>
        have hk1 : pr1.1 = k := by simpa using List.find?_some hf
        have : ¬ pr1.1 = o.strike := by rw [hk1]; exact fun h => hne h.symm
        simp [lookupQ, hf, this]

lemma genFold_last {β γ : Type} (init : β) (upd : Opt → β → β)
    (sel : Opt → Bool) (ext : β → γ) (val : Opt → γ)
    (hsel : ∀ (o : Opt) (b : β), sel o = true → ext (upd o b) = val o)
    (hother : ∀ (o : Opt) (b : β), sel o = false → ext (upd o b) = ext b)
    (options : List Opt) (m0 : List (ℚ × β)) (k : ℚ) (hk : 0 < k) :
    ∀ c, (options.filter
        (fun o => decide (o.strike = k) && sel o)).getLast? = some c →
      (lookupQ (options.foldl (genStep init upd) m0) k).map ext =
        some (val c) := by
  induction options using List.reverseRecOn with
  | nil => intro c hc; simp at hc
  | append_singleton l o ih =>
    intro c hc
    rw [List.foldl_append, List.foldl_cons, List.foldl_nil]
    rw [List.filter_append] at hc
    by_cases hmatch : (decide (o.strike = k) && sel o) = true
    · rw [show List.filter (fun o => decide (o.strike = k) && sel o) [o] = [o]
          from by simp [List.filter_cons, hmatch]] at hc
      rw [List.getLast?_concat] at hc
      rw [Option.some.injEq] at hc
      subst hc
      simp only [Bool.and_eq_true, decide_eq_true_eq] at hmatch
      rw [genStep, if_neg (by rw [hmatch.1]; exact not_le.mpr hk)]
      rw [hmatch.1, lookupQ_upd_set]
      simp [hsel o _ hmatch.2]
    · have hb : (decide (o.strike = k) && sel o) = false :=
        Bool.eq_false_iff.mpr hmatch
      rw [show List.filter (fun o => decide (o.strike = k) && sel o) [o] = []
          from by simp [List.filter_cons, hb]] at hc
      rw [List.append_nil] at hc
      have ihc := ih c hc
      by_cases hne : o.strike = k
      · have hselo : sel o = false := by
          cases hso : sel o
          · rfl
          · exact absurd (by simp [hne, hso]) hmatch
        rw [genStep, if_neg (by rw [hne]; exact not_le.mpr hk)]
        rw [hne, lookupQ_upd_set]
        cases hl : lookupQ (l.foldl (genStep init upd) m0) k with
        | none => rw [hl] at ihc; simp at ihc
        | some b =>
          rw [hl] at ihc
          have hib : ext b = val c := by simpa using ihc
          simp [hother o _ hselo, hib]
      · rw [lookupQ_genStep_other init upd _ o k hne]
        exact ihc

end OptionsQuant

namespace OptionsQuant

/-- Last contract with the given strike and side in an option list (the
one whose values a dict-overwriting loop retains). -/
def lastSideAt (options : List Opt) (sd : Side) (k : ℚ) : Option Opt :=
  (options.filter (fun o => decide (o.strike = k) && decide (o.side = sd))).getLast?

/-- Lookup in the strikes_map of calculate_quant_metrics. -/
def sdLookup (m : List LocalSrv.StrikeData) (k : ℚ) :
    Option LocalSrv.StrikeData :=
  m.find? (fun s => decide (s.strike = k))

/-- Generic shape of one iteration of the strikes_map loops of
calculate_quant_metrics. -/
def genRecStep
    (upd : LocalSrv.OptionContract → LocalSrv.StrikeData → LocalSrv.StrikeData)
    (m : List LocalSrv.StrikeData) (c : LocalSrv.OptionContract) :
    List LocalSrv.StrikeData :=
  (if m.any (fun s => decide (s.strike = c.strike)) then m
    else m ++ [{ strike := c.strike }]).map
    (fun s => if s.strike = c.strike then upd c s else s)

lemma sdLookup_genRecStep_self
    (upd : LocalSrv.OptionContract → LocalSrv.StrikeData → LocalSrv.StrikeData)
    (hkey : ∀ c s, (upd c s).strike = s.strike)
    (m : List LocalSrv.StrikeData) (c : LocalSrv.OptionContract) :
    sdLookup (genRecStep upd m c) c.strike =
      some (upd c ((sdLookup m c.strike).getD { strike := c.strike })) := by
  have hp : ∀ s : LocalSrv.StrikeData,
      (fun s : LocalSrv.StrikeData => decide (s.strike = c.strike))
        (if s.strike = c.strike then upd c s else s) =
        decide (s.strike = c.strike) := by
    intro s
    by_cases h : s.strike = c.strike <;> simp [h, hkey]
  rw [sdLookup, genRecStep, find?_map_keyfix _ _ hp]
  by_cases hhas : m.any (fun s => decide (s.strike = c.strike))
  · rw [if_pos hhas]
    have hex : ∃ s ∈ m, decide (s.strike = c.strike) = true := by
      simpa [List.any_eq_true] using hhas
    obtain ⟨s1, hf⟩ := Option.isSome_iff_exists.mp (List.find?_isSome.mpr hex)
    have hk1 : s1.strike = c.strike := by simpa using List.find?_some hf
    rw [hf]
    simp [sdLookup, hf, hk1]
  · rw [if_neg hhas]
    have hnone : m.find? (fun s => decide (s.strike = c.strike)) = none := by
      rw [List.find?_eq_none]
      intro s hm
      simp only [List.any_eq_true] at hhas
      push_neg at hhas
      simpa using hhas s hm
    rw [List.find?_append, hnone]
    simp [sdLookup, hnone]

lemma sdLookup_genRecStep_other
    (upd : LocalSrv.OptionContract → LocalSrv.StrikeData → LocalSrv.StrikeData)
    (hkey : ∀ c s, (upd c s).strike = s.strike)
    (m : List LocalSrv.StrikeData) (c : LocalSrv.OptionContract) (k : ℚ)
    (hne : c.strike ≠ k) :
    sdLookup (genRecStep upd m c) k = sdLookup m k := by
  have hp : ∀ s : LocalSrv.StrikeData,
      (fun s : LocalSrv.StrikeData => decide (s.strike = k))
        (if s.strike = c.strike then upd c s else s) =
        decide (s.strike = k) := by
    intro s
    by_cases h : s.strike = c.strike <;> simp [h, hkey]
  rw [sdLookup, genRecStep, find?_map_keyfix _ _ hp]
  by_cases hhas : m.any (fun s => decide (s.strike = c.strike))
  · rw [if_pos hhas]
    cases hf : m.find? (fun s => decide (s.strike = k)) with
    | none => simp [sdLookup, hf]
    | some s1 =>
      have hk1 : s1.strike = k := by simpa using List.find?_some hf
      have : ¬ s1.strike = c.strike := by
        rw [hk1]; exact fun h => hne h.symm
      simp [sdLookup, hf, this]
  · rw [if_neg hhas, List.find?_append]
    have h2 : ([({ strike := c.strike } : LocalSrv.StrikeData)].find?
        (fun s => decide (s.strike = k))) = none := by
      simp [List.find?, hne]
    rw [h2]
    cases hf : m.find? (fun s => decide (s.strike = k)) with
    | none => simp [sdLookup, hf]
    | some s1 =>
      have hk1 : s1.strike = k := by simpa using List.find?_some hf
      have : ¬ s1.strike = c.strike := by
        rw [hk1]; exact fun h => hne h.symm
      simp [sdLookup, hf, this]

lemma genRecFold_last {γ : Type}
    (upd : LocalSrv.OptionContract → LocalSrv.StrikeData → LocalSrv.StrikeData)
    (hkey : ∀ c s, (upd c s).strike = s.strike)
    (ext : LocalSrv.StrikeData → γ) (val : LocalSrv.OptionContract → γ)
    (hext : ∀ c s, ext (upd c s) = val c)
    (contracts : List LocalSrv.OptionContract)
    (m0 : List LocalSrv.StrikeData) (k : ℚ) :
    ∀ c, (contracts.filter (fun x => decide (x.strike = k))).getLast? =
        some c →
      (sdLookup (contracts.foldl (genRecStep upd) m0) k).map ext =
        some (val c) := by
  induction contracts using List.reverseRecOn with
  | nil => intro c hc; simp at hc
  | append_singleton l o ih =>
    intro c hc
    rw [List.foldl_append, List.foldl_cons, List.foldl_nil]
    rw [List.filter_append] at hc
    by_cases hmatch : o.strike = k
    · rw [show List.filter (fun x => decide (x.strike = k)) [o] = [o]
          from by simp [List.filter_cons, hmatch]] at hc
      rw [List.getLast?_concat] at hc
      rw [Option.some.injEq] at hc
      subst hc
      rw [← hmatch, sdLookup_genRecStep_self upd hkey]
      simp [hext]
    · rw [show List.filter (fun x => decide (x.strike = k)) [o] = []
          from by simp [List.filter_cons, hmatch]] at hc
      rw [List.append_nil] at hc
      rw [sdLookup_genRecStep_other upd hkey _ o k hmatch]
      exact ih c hc

lemma genRecFold_preserves {γ : Type}
    (upd : LocalSrv.OptionContract → LocalSrv.StrikeData → LocalSrv.StrikeData)
    (hkey : ∀ c s, (upd c s).strike = s.strike)
    (ext : LocalSrv.StrikeData → γ)
    (hpres : ∀ c s, ext (upd c s) = ext s)
    (contracts : List LocalSrv.OptionContract) :
    ∀ (m : List LocalSrv.StrikeData) (k : ℚ) (v : γ),
      (sdLookup m k).map ext = some v →
      (sdLookup (contracts.foldl (genRecStep upd) m) k).map ext = some v := by
  induction contracts with
  | nil => intro m k v h; exact h
  | cons c rest ih =>
    intro m k v h
    rw [List.foldl_cons]
    apply ih
    by_cases hk : c.strike = k
    · rw [← hk] at h ⊢
      rw [sdLookup_genRecStep_self upd hkey]
      cases hl : sdLookup m c.strike with
      | none => rw [hl] at h; simp at h
      | some s =>
        rw [hl] at h
        have hsb : ext s = v := by simpa using h
        simp [hpres, hsb]
    · rw [sdLookup_genRecStep_other upd hkey _ c k hk]
      exact h

/-- C9: every per-strike bucket builder overwrites on duplicate (strike,
side) pairs and never sums: in calculate_gamma_flip the bucket holds the
last same-side contract's open interest and implied volatility; in
calculate_max_pain it holds the last same-side contract's open interest;
and in calculate_quant_metrics the strikes_map entry holds the last
same-strike call's (and separately the last put's) open interest, volume
and implied volatility. -/
theorem bucket_overwrites (options : List Opt)
    (calls puts : List LocalSrv.OptionContract) (k : ℚ) :
    (0 < k → ∀ c, lastSideAt options Side.CALL k = some c →
      (lookupQ (Fetch.flipBuckets options) k).map
        (fun b => (b.call_oi, b.call_iv)) = some (c.oi, c.iv) ∧
      (lookupQ (Fetch.mpBuckets options) k).map (fun b => b.call_oi) =
        some c.oi) ∧
    (0 < k → ∀ c, lastSideAt options Side.PUT k = some c →
      (lookupQ (Fetch.flipBuckets options) k).map
        (fun b => (b.put_oi, b.put_iv)) = some (c.oi, c.iv) ∧
      (lookupQ (Fetch.mpBuckets options) k).map (fun b => b.put_oi) =
        some c.oi) ∧
    (∀ c, (calls.filter (fun x => decide (x.strike = k))).getLast? = some c →
      (sdLookup (LocalSrv.buildStrikesMap calls puts) k).map
          (fun s => (s.call_oi, s.call_volume, s.call_iv)) =
        some (some (c.openInterest.getD 0), some (c.volume.getD 0),
          some c.impliedVolatility)) ∧
    (∀ c, (puts.filter (fun x => decide (x.strike = k))).getLast? = some c →
      (sdLookup (LocalSrv.buildStrikesMap calls puts) k).map
          (fun s => (s.put_oi, s.put_volume, s.put_iv)) =
        some (some (c.openInterest.getD 0), some (c.volume.getD 0),
          some c.impliedVolatility)) := by
  have hflip : Fetch.flipBuckets options =
      options.foldl (genStep ⟨0, 0, 0.3, 0.3⟩ Fetch.flipUpd) [] := rfl
  have hmp : Fetch.mpBuckets options =
      options.foldl (genStep ⟨0, 0⟩ Fetch.mpUpd) [] := rfl
  have hsmc : ∀ (l : List LocalSrv.OptionContract)
      (m : List LocalSrv.StrikeData),
      l.foldl LocalSrv.smCallStep m =
        l.foldl (genRecStep (fun c s =>
          { s with call_oi := some (c.openInterest.getD 0),
                   call_volume := some (c.volume.getD 0),
                   call_iv := some c.impliedVolatility })) m := fun l m => rfl
  have hsmp : ∀ (l : List LocalSrv.OptionContract)
      (m : List LocalSrv.StrikeData),
      l.foldl LocalSrv.smPutStep m =
        l.foldl (genRecStep (fun c s =>
          { s with put_oi := some (c.openInterest.getD 0),
                   put_volume := some (c.volume.getD 0),
                   put_iv := some c.impliedVolatility })) m := fun l m => rfl
  refine ⟨?_, ?_, ?_, ?_⟩
  · intro hk c hc
    constructor
    · rw [hflip]
      exact genFold_last _ _ _ _ (fun o => (o.oi, o.iv))
        (fun o b hs => by
          rw [Fetch.flipUpd]
          rcases o with ⟨st, sd, iv, oi, vol⟩
          cases sd
          · rfl
          · simp at hs)
        (fun o b hs => by
          rw [Fetch.flipUpd]
          rcases o with ⟨st, sd, iv, oi, vol⟩
          cases sd
          · simp at hs
          · rfl)
        options [] k hk c hc
    · rw [hmp]
      exact genFold_last _ _ _ _ (fun o => o.oi)
        (fun o b hs => by
          rw [Fetch.mpUpd]
          rcases o with ⟨st, sd, iv, oi, vol⟩
          cases sd
          · rfl
          · simp at hs)
        (fun o b hs => by
          rw [Fetch.mpUpd]
          rcases o with ⟨st, sd, iv, oi, vol⟩
          cases sd
          · simp at hs
          · rfl)
        options [] k hk c hc
  · intro hk c hc
    constructor
    · rw [hflip]
      exact genFold_last _ _ _ _ (fun o => (o.oi, o.iv))
        (fun o b hs => by
          rw [Fetch.flipUpd]
          rcases o with ⟨st, sd, iv, oi, vol⟩
          cases sd
          · simp at hs
          · rfl)
        (fun o b hs => by
          rw [Fetch.flipUpd]
          rcases o with ⟨st, sd, iv, oi, vol⟩
          cases sd
          · rfl
          · simp at hs)
        options [] k hk c hc
    · rw [hmp]
      exact genFold_last _ _ _ _ (fun o => o.oi)
        (fun o b hs => by
          rw [Fetch.mpUpd]
          rcases o with ⟨st, sd, iv, oi, vol⟩
          cases sd
          · simp at hs
          · rfl)
        (fun o b hs => by
          rw [Fetch.mpUpd]
          rcases o with ⟨st, sd, iv, oi, vol⟩
          cases sd
          · rfl
          · simp at hs)
        options [] k hk c hc
  · intro c hc
    rw [LocalSrv.buildStrikesMap, hsmc, hsmp]
    exact genRecFold_preserves
      (fun c s =>
        { s with put_oi := some (c.openInterest.getD 0),
                 put_volume := some (c.volume.getD 0),
                 put_iv := some c.impliedVolatility })
      (fun c s => rfl)
      (fun s => (s.call_oi, s.call_volume, s.call_iv))
      (fun c s => rfl) puts _ k _
      (genRecFold_last
        (fun c s =>
          { s with call_oi := some (c.openInterest.getD 0),
                   call_volume := some (c.volume.getD 0),
                   call_iv := some c.impliedVolatility })
        (fun c s => rfl)
        (fun s => (s.call_oi, s.call_volume, s.call_iv))
        (fun c : LocalSrv.OptionContract =>
          (some (c.openInterest.getD 0), some (c.volume.getD 0),
            some c.impliedVolatility))
        (fun c s => rfl) calls [] k c hc)
  · intro c hc
    rw [LocalSrv.buildStrikesMap, hsmp]
    exact genRecFold_last
      (fun c s =>
        { s with put_oi := some (c.openInterest.getD 0),
                 put_volume := some (c.volume.getD 0),
                 put_iv := some c.impliedVolatility })
      (fun c s => rfl)
      (fun s => (s.put_oi, s.put_volume, s.put_iv))
      (fun c : LocalSrv.OptionContract =>
        (some (c.openInterest.getD 0), some (c.volume.getD 0),
          some c.impliedVolatility))
      (fun c s => rfl) puts _ k c hc

/-- C9 witness: bucket_overwrites applied to a chain with two CALL
contracts at strike 100, where the bucket keeps the second contract's
open interest 7 and implied volatility 0.6. -/
theorem bucket_overwrites_witness :
    (lookupQ (Fetch.flipBuckets
        [{ strike := 100, side := Side.CALL, iv := 1, oi := 5, vol := 1 },
         { strike := 100, side := Side.CALL, iv := 2, oi := 7, vol := 2 }])
      100).map (fun b => (b.call_oi, b.call_iv)) = some (7, 2) :=
  ((bucket_overwrites
    [{ strike := 100, side := Side.CALL, iv := 1, oi := 5, vol := 1 },
     { strike := 100, side := Side.CALL, iv := 2, oi := 7, vol := 2 }]
    [] [] 100).1 (by norm_num)
    { strike := 100, side := Side.CALL, iv := 2, oi := 7, vol := 2 }
    (by decide)).1

/-- C5: both Black-Scholes gamma calculators return exactly 0 on every
degenerate input (spot, strike, sigma or T nonpositive) instead of raising,
and on every valid input they agree and the common value is non-negative
(and total, hence finite, in the real-number model). -/
theorem bs_gamma_safe (S K T r sigma : ℝ) :
    ((S ≤ 0 ∨ K ≤ 0 ∨ sigma ≤ 0 ∨ T ≤ 0) →
      Fetch.calculate_black_scholes_gamma S K T r sigma = 0 ∧
      LocalSrv.calculate_black_scholes_gamma S K T r sigma = 0) ∧
    (0 < S → 0 < K → 0 < T → 0 < sigma →
      Fetch.calculate_black_scholes_gamma S K T r sigma =
        LocalSrv.calculate_black_scholes_gamma S K T r sigma ∧
      0 ≤ LocalSrv.calculate_black_scholes_gamma S K T r sigma) := by
  constructor
  · intro h
    constructor
    · rw [Fetch.calculate_black_scholes_gamma]
      split_ifs with h1 h2
      · rfl
      · rfl
      · exfalso
        push_neg at h1 h2
        rcases h with h | h | h | h
        · exact absurd h (not_le.mpr h1.2.2)
        · exact absurd h (not_le.mpr h2)
        · exact absurd h (not_le.mpr h1.1)
        · exact absurd h (not_le.mpr h1.2.1)
    · rw [LocalSrv.calculate_black_scholes_gamma]
      split_ifs with h1
      · rfl
      · exfalso
        push_neg at h1
        rcases h with h | h | h | h
        · exact absurd h (not_le.mpr h1.2.2.1)
        · exact absurd h (not_le.mpr h1.2.2.2)
        · exact absurd h (not_le.mpr h1.2.1)
        · exact absurd h (not_le.mpr h1.1)
  · intro hS hK hT hsigma
    have hguard1 : ¬ (sigma ≤ 0 ∨ T ≤ 0 ∨ S ≤ 0) := by
      push_neg
      exact ⟨hsigma, hT, hS⟩
    have hguard2 : ¬ K ≤ 0 := not_le.mpr hK
    have hguard3 : ¬ (T ≤ 0 ∨ sigma ≤ 0 ∨ S ≤ 0 ∨ K ≤ 0) := by
      push_neg
      exact ⟨hT, hsigma, hS, hK⟩
    constructor
    · rw [Fetch.calculate_black_scholes_gamma, if_neg hguard1, if_neg hguard2,
        LocalSrv.calculate_black_scholes_gamma, if_neg hguard3, LocalSrv.normPdf]
      have hsqrt : Real.sqrt (2 * Real.pi * T) =
          Real.sqrt (2 * Real.pi) * Real.sqrt T :=
        Real.sqrt_mul (by positivity) T
      rw [hsqrt]
      have hexp : ∀ x : ℝ, -0.5 * x ^ 2 = -(x ^ 2) / 2 := by
        intro x; ring
      rw [hexp]
      ring
    · rw [LocalSrv.calculate_black_scholes_gamma, if_neg hguard3, LocalSrv.normPdf]
      positivity

/-! ### Cross-expiry confluence and resonance levels

find_confluence_levels_enhanced and find_resonance_levels_enhanced of
fetch_options_data.py share their whole body except the tolerance default,
the required presence count (2 vs 3) and the output cap (5 vs 2); they are
embedded through the common core levelsCore.  calculate_time_to_expiry
reads the clock, so the time to expiry enters as an explicit function tte
of the expiry date string.  The purely presentational output fields (the
joined label string and the per-expiry detail records) are omitted; every
field the spec claims read is kept. -/

namespace Fetch

/-- One iteration of the strike_presence grouping loop of both enhanced
level finders: round the strike to 2 decimals, skip nonpositive values,
attach the expiry to the first existing key within tolerance (at most once
per expiry index), otherwise append a fresh key. -/
def spAddOpt (tol : ℚ) (idx : ℕ) (lab : String)
    (sp : List (ℚ × List (ℕ × String × ℚ))) (o : Opt) :
    List (ℚ × List (ℕ × String × ℚ)) :=
  if roundq 2 o.strike ≤ 0 then sp
  else
    match (sp.find? (fun pr =>
        decide (|pr.1 - roundq 2 o.strike| / max pr.1 (roundq 2 o.strike) ≤
          tol))).map Prod.fst with
    | some k =>
        if (dictGet sp k []).any (fun e => decide (e.1 = idx)) then sp
        else dictUpd sp k (fun l => l ++ [(idx, lab, roundq 2 o.strike)])
    | none =>
        if dictHas sp (roundq 2 o.strike) then sp
        else sp ++ [(roundq 2 o.strike, [(idx, lab, roundq 2 o.strike)])]

/-- The strike_presence map built by both enhanced level finders. -/
def strikePresence (tol : ℚ) (expiries : List ExpiryData) :
    List (ℚ × List (ℕ × String × ℚ)) :=
  expiries.enum.foldl
    (fun sp ie => ie.2.options.foldl (spAddOpt tol ie.1 ie.2.label) sp) []

/-- The open-interest and volume aggregates returned by
get_options_at_strike (the gamma entries of the Python result stay 0.0 and
the callers compute gamma separately, so they are not recorded). -/
structure StrikeAgg where
  call_oi : ℚ := 0
  put_oi : ℚ := 0
  call_vol : ℚ := 0
  put_vol : ℚ := 0

/-- get_options_at_strike of fetch_options_data.py: sum open interest and
volume per side over the contracts whose strike lies within tolerance of
the target. -/
def get_options_at_strike (options : List Opt) (strike tol : ℚ) :
    StrikeAgg :=
  options.foldl
    (fun res o =>
      if tol < |o.strike - strike| / max strike (max o.strike 1) then res
      else
        match o.side with
        | Side.CALL =>
            { res with call_oi := res.call_oi + o.oi,
                       call_vol := res.call_vol + o.vol }
        | Side.PUT =>
            { res with put_oi := res.put_oi + o.oi,
                       put_vol := res.put_vol + o.vol }) {}

/-- The implied-volatility scan of both enhanced level finders: defaults
0.3 per side, the last in-tolerance contract of each side wins. -/
def ivAt (options : List Opt) (actual tol : ℚ) : ℚ × ℚ :=
  options.foldl
    (fun ivs o =>
      if |o.strike - actual| / max actual 1 ≤ tol then
        match o.side with
        | Side.CALL => (o.iv, ivs.2)
        | Side.PUT => (ivs.1, o.iv)
      else ivs) (0.3, 0.3)

/-- One reported confluence or resonance level. -/
structure Level where
  strike : ℚ
  expiries : List String
  total_call_oi : ℚ
  total_put_oi : ℚ
  total_call_vol : ℚ
  total_put_vol : ℚ
  put_call_ratio : ℚ
  total_gamma : ℝ

/-- The contribution of one presence entry to a level: the per-expiry
strike aggregates and the gamma-exposure term added to total_gamma. -/
noncomputable def levelTerm (expiries : List ExpiryData) (spot tol : ℚ)
    (tte : String → ℝ) (e : ℕ × String × ℚ) : StrikeAgg × ℝ :=
  let ed := expiries.getD e.1 { label := "", date := "", options := [] }
  let agg := get_options_at_strike ed.options e.2.2 tol
  let ivs := ivAt ed.options e.2.2 tol
  (agg,
    (calculate_black_scholes_gamma (spot : ℝ) (e.2.2 : ℝ) (tte ed.date)
          0.05 (ivs.1 : ℝ) * (agg.call_oi : ℝ) +
        calculate_black_scholes_gamma (spot : ℝ) (e.2.2 : ℝ) (tte ed.date)
          0.05 (ivs.2 : ℝ) * (agg.put_oi : ℝ)) *
      100 * (spot : ℝ) * (spot : ℝ) * 0.01 / 1000000000)

/-- The enhanced result record built for one selected presence key. -/
noncomputable def levelFor (expiries : List ExpiryData) (spot tol : ℚ)
    (tte : String → ℝ) (sp : List (ℚ × List (ℕ × String × ℚ)))
    (strike : ℚ) : Level :=
  let info := dictGet sp strike []
  let terms := info.map (levelTerm expiries spot tol tte)
  let tco := (terms.map (fun t => t.1.call_oi)).sum
  let tpo := (terms.map (fun t => t.1.put_oi)).sum
  { strike := roundq 2 strike
    expiries := info.map (fun e => e.2.1)
    total_call_oi := tco
    total_put_oi := tpo
    total_call_vol := (terms.map (fun t => t.1.call_vol)).sum
    total_put_vol := (terms.map (fun t => t.1.put_vol)).sum
    put_call_ratio :=
      if 0 < tco then roundq 2 (tpo / tco)
      else if tpo = 0 then 0 else 99.99
    total_gamma := roundr 6 ((terms.map (fun t => t.2)).sum) }

/-- Sort order of the selected strikes: ascending distance from spot. -/
def distLe (spot : ℚ) (a b : ℚ) : Prop := |a - spot| ≤ |b - spot|

instance (spot : ℚ) : DecidableRel (distLe spot) := fun a b =>
  inferInstanceAs (Decidable (|a - spot| ≤ |b - spot|))

instance (spot : ℚ) : IsTotal ℚ (distLe spot) :=
  ⟨fun a b => le_total (|a - spot|) (|b - spot|)⟩

instance (spot : ℚ) : IsTrans ℚ (distLe spot) :=
  ⟨fun _ _ _ hab hbc => le_trans hab hbc⟩

/-- The shared body of the two enhanced level finders: keep the presence
entries seen by exactly cnt expiries, sort their keys by distance from
spot, and report levels for the first cap of them. -/
noncomputable def levelsCore (cnt cap : ℕ) (expiries : List ExpiryData)
    (spot tol : ℚ) (tte : String → ℝ) : List Level :=
  ((List.insertionSort (distLe spot)
      (((strikePresence tol expiries).filter
        (fun pr => decide (pr.2.length = cnt))).map Prod.fst)).take cap).map
    (levelFor expiries spot tol tte
      ((strikePresence tol expiries).filter
        (fun pr => decide (pr.2.length = cnt))))

/-- find_confluence_levels_enhanced of fetch_options_data.py. -/
noncomputable def find_confluence_levels_enhanced
    (expiries : List ExpiryData) (spot tol : ℚ) (tte : String → ℝ) :
    List Level :=
  if expiries.length < 2 then [] else levelsCore 2 5 expiries spot tol tte

/-- find_resonance_levels_enhanced of fetch_options_data.py. -/
noncomputable def find_resonance_levels_enhanced
    (expiries : List ExpiryData) (spot tol : ℚ) (tte : String → ℝ) :
    List Level :=
  if expiries.length < 3 then [] else levelsCore 3 2 expiries spot tol tte

end Fetch

lemma roundq_roundq (n : ℕ) (x : ℚ) :
    roundq n (roundq n x) = roundq n x := by
  simp only [roundq]
  rw [div_mul_cancel₀ _ (pow_ne_zero n (by norm_num : (10 : ℚ) ≠ 0)),
    round_intCast]

/-- All keys of a presence map are 2-decimal rounded values. -/
def KeysRounded (sp : List (ℚ × List (ℕ × String × ℚ))) : Prop :=
  ∀ pr ∈ sp, roundq 2 pr.1 = pr.1

lemma keysRounded_spAddOpt (tol : ℚ) (idx : ℕ) (lab : String)
    (sp : List (ℚ × List (ℕ × String × ℚ))) (o : Opt)
    (h : KeysRounded sp) : KeysRounded (Fetch.spAddOpt tol idx lab sp o) := by
  intro pr hpr
  simp only [Fetch.spAddOpt] at hpr
  split at hpr
  · exact h pr hpr
  · split at hpr
    · split at hpr
      · exact h pr hpr
      · rw [dictUpd, List.mem_map] at hpr
        obtain ⟨pr0, hpr0, heq⟩ := hpr
        rw [← heq]
        split
        · exact h pr0 hpr0
        · exact h pr0 hpr0
    · split at hpr
      · exact h pr hpr
      · rw [List.mem_append] at hpr
        rcases hpr with hpr | hpr
        · exact h pr hpr
        · rw [List.mem_singleton] at hpr
          rw [hpr]
          exact roundq_roundq 2 o.strike

lemma keysRounded_foldl_opts (tol : ℚ) (idx : ℕ) (lab : String)
    (opts : List Opt) :
    ∀ sp, KeysRounded sp →
      KeysRounded (opts.foldl (Fetch.spAddOpt tol idx lab) sp) := by
  induction opts with
  | nil => intro sp h; exact h
  | cons o rest ih =>
    intro sp h
    exact ih _ (keysRounded_spAddOpt tol idx lab sp o h)

lemma keysRounded_strikePresence (tol : ℚ) (expiries : List ExpiryData) :
    KeysRounded (Fetch.strikePresence tol expiries) := by
  rw [Fetch.strikePresence]
  generalize expiries.enum = l
  have hbase : KeysRounded [] := by intro pr hpr; simp at hpr
  revert hbase
  generalize ([] : List (ℚ × List (ℕ × String × ℚ))) = sp0
  induction l generalizing sp0 with
  | nil => intro h; exact h
  | cons ie rest ih =>
    intro h
    rw [List.foldl_cons]
    exact ih _ (keysRounded_foldl_opts tol ie.1 ie.2.label ie.2.options sp0 h)

lemma levelsCore_len_le (cnt cap : ℕ) (expiries : List ExpiryData)
    (spot tol : ℚ) (tte : String → ℝ) :
    (Fetch.levelsCore cnt cap expiries spot tol tte).length ≤ cap := by
  rw [Fetch.levelsCore, List.length_map, List.length_take]
  exact min_le_left _ _

lemma levelsCore_dist_chain (cnt cap : ℕ) (expiries : List ExpiryData)
    (spot tol : ℚ) (tte : String → ℝ) :
    ((Fetch.levelsCore cnt cap expiries spot tol tte).map
      (fun l => |l.strike - spot|)).Chain' (fun a b => a ≤ b) := by
  rw [Fetch.levelsCore, List.map_map]
  have hsorted : (List.insertionSort (Fetch.distLe spot)
      ((((Fetch.strikePresence tol expiries).filter
        (fun pr => decide (pr.2.length = cnt))).map Prod.fst))).Pairwise
      (Fetch.distLe spot) :=
    List.sorted_insertionSort _ _
  have htake := List.Pairwise.sublist (List.take_sublist cap _) hsorted
  have hfix : ∀ s ∈ (List.insertionSort (Fetch.distLe spot)
      ((((Fetch.strikePresence tol expiries).filter
        (fun pr => decide (pr.2.length = cnt))).map Prod.fst))).take cap,
      roundq 2 s = s := by
    intro s hs
    have hs1 := ((List.perm_insertionSort (Fetch.distLe spot) _).mem_iff).mp
      (List.mem_of_mem_take hs)
    obtain ⟨pr0, hpr0, hpr1⟩ := List.mem_map.mp hs1
    rw [← hpr1]
    exact keysRounded_strikePresence tol expiries pr0
      (List.mem_of_mem_filter hpr0)
  rw [List.map_congr_left (fun s hs => by
    show |(Fetch.levelFor expiries spot tol tte _ s).strike - spot| =
      |s - spot|
    rw [show (Fetch.levelFor expiries spot tol tte
        ((Fetch.strikePresence tol expiries).filter
          (fun pr => decide (pr.2.length = cnt))) s).strike =
        roundq 2 s from rfl, hfix s hs])]
  rw [List.chain'_map]
  exact List.Pairwise.chain' htake

lemma levelFor_pcr_ok (expiries : List ExpiryData) (spot tol : ℚ)
    (tte : String → ℝ) (sp : List (ℚ × List (ℕ × String × ℚ))) (k : ℚ) :
    (0 < (Fetch.levelFor expiries spot tol tte sp k).total_call_oi →
      (Fetch.levelFor expiries spot tol tte sp k).put_call_ratio =
        roundq 2 ((Fetch.levelFor expiries spot tol tte sp k).total_put_oi /
          (Fetch.levelFor expiries spot tol tte sp k).total_call_oi)) ∧
    ((Fetch.levelFor expiries spot tol tte sp k).total_call_oi = 0 →
      (Fetch.levelFor expiries spot tol tte sp k).total_put_oi = 0 →
      (Fetch.levelFor expiries spot tol tte sp k).put_call_ratio = 0) ∧
    ((Fetch.levelFor expiries spot tol tte sp k).total_call_oi = 0 →
      0 < (Fetch.levelFor expiries spot tol tte sp k).total_put_oi →
      (Fetch.levelFor expiries spot tol tte sp k).put_call_ratio = 99.99) := by
  have hrfl : (Fetch.levelFor expiries spot tol tte sp k).put_call_ratio =
      if 0 < (Fetch.levelFor expiries spot tol tte sp k).total_call_oi then
        roundq 2 ((Fetch.levelFor expiries spot tol tte sp k).total_put_oi /
          (Fetch.levelFor expiries spot tol tte sp k).total_call_oi)
      else if (Fetch.levelFor expiries spot tol tte sp k).total_put_oi = 0
        then 0 else 99.99 := rfl
  refine ⟨fun h => ?_, fun h0 hp0 => ?_, fun h0 hpos => ?_⟩
  · rw [hrfl, if_pos h]
  · rw [hrfl, if_neg (by rw [h0]; exact lt_irrefl 0), if_pos hp0]
  · rw [hrfl, if_neg (by rw [h0]; exact lt_irrefl 0),
      if_neg (ne_of_gt hpos)]

/-- C8: find_resonance_levels_enhanced returns [] whenever fewer than 3
expiry sets are supplied and find_confluence_levels_enhanced returns []
whenever fewer than 2 are; for every input the resonance list has at most
2 levels and the confluence list at most 5, and both are ranked by
ascending distance of the reported strike from spot. -/
theorem cross_expiry_levels_shape (expiries : List ExpiryData)
    (spot tolC tolR : ℚ) (tte : String → ℝ) :
    (expiries.length < 3 →
      Fetch.find_resonance_levels_enhanced expiries spot tolR tte = []) ∧
    (expiries.length < 2 →
      Fetch.find_confluence_levels_enhanced expiries spot tolC tte = []) ∧
    (Fetch.find_resonance_levels_enhanced expiries spot tolR tte).length ≤
      2 ∧
    (Fetch.find_confluence_levels_enhanced expiries spot tolC tte).length ≤
      5 ∧
    ((Fetch.find_resonance_levels_enhanced expiries spot tolR tte).map
      (fun l => |l.strike - spot|)).Chain' (fun a b => a ≤ b) ∧
    ((Fetch.find_confluence_levels_enhanced expiries spot tolC tte).map
      (fun l => |l.strike - spot|)).Chain' (fun a b => a ≤ b) := by
  refine ⟨fun h => ?_, fun h => ?_, ?_, ?_, ?_, ?_⟩
  · rw [Fetch.find_resonance_levels_enhanced, if_pos h]
  · rw [Fetch.find_confluence_levels_enhanced, if_pos h]
  · rw [Fetch.find_resonance_levels_enhanced]
    by_cases h : expiries.length < 3
    · rw [if_pos h]; exact Nat.zero_le 2
    · rw [if_neg h]; exact levelsCore_len_le 3 2 expiries spot tolR tte
  · rw [Fetch.find_confluence_levels_enhanced]
    by_cases h : expiries.length < 2
    · rw [if_pos h]; exact Nat.zero_le 5
    · rw [if_neg h]; exact levelsCore_len_le 2 5 expiries spot tolC tte
  · rw [Fetch.find_resonance_levels_enhanced]
    by_cases h : expiries.length < 3
    · rw [if_pos h]; exact List.chain'_nil
    · rw [if_neg h]; exact levelsCore_dist_chain 3 2 expiries spot tolR tte
  · rw [Fetch.find_confluence_levels_enhanced]
    by_cases h : expiries.length < 2
    · rw [if_pos h]; exact List.chain'_nil
    · rw [if_neg h]; exact levelsCore_dist_chain 2 5 expiries spot tolC tte

/-- C8 witness: cross_expiry_levels_shape applied to the empty expiry
list, whose resonance and confluence outputs are both empty. -/
theorem cross_expiry_levels_shape_witness :
    ([] : List ExpiryData).length < 3 ∧
    ([] : List ExpiryData).length < 2 ∧
    Fetch.find_resonance_levels_enhanced [] 100 (5 / 1000)
      (fun _ => 1) = [] ∧
    Fetch.find_confluence_levels_enhanced [] 100 (1 / 100)
      (fun _ => 1) = [] :=
  ⟨by decide, by decide,
    (cross_expiry_levels_shape [] 100 (1 / 100) (5 / 1000)
      (fun _ => 1)).1 (by decide),
    (cross_expiry_levels_shape [] 100 (1 / 100) (5 / 1000)
      (fun _ => 1)).2.1 (by decide)⟩

/-- C10: every reported confluence or resonance level carries
put_call_ratio = round2(total put OI / total call OI) when the aggregated
call open interest is positive, 0 when call and put open interest are both
zero, and the sentinel 99.99 when call open interest is zero but put open
interest is positive. -/
theorem level_pcr_policy (expiries : List ExpiryData)
    (spot tolC tolR : ℚ) (tte : String → ℝ) :
    List.Forall
      (fun l : Fetch.Level =>
        (0 < l.total_call_oi →
          l.put_call_ratio = roundq 2 (l.total_put_oi / l.total_call_oi)) ∧
        (l.total_call_oi = 0 → l.total_put_oi = 0 →
          l.put_call_ratio = 0) ∧
        (l.total_call_oi = 0 → 0 < l.total_put_oi →
          l.put_call_ratio = 99.99))
      (Fetch.find_confluence_levels_enhanced expiries spot tolC tte ++
        Fetch.find_resonance_levels_enhanced expiries spot tolR tte) := by
  rw [List.forall_iff_forall_mem]
  intro l hl
  rw [List.mem_append] at hl
  have hcore : ∀ cnt cap tol, l ∈ Fetch.levelsCore cnt cap expiries spot
      tol tte →
      (0 < l.total_call_oi →
        l.put_call_ratio = roundq 2 (l.total_put_oi / l.total_call_oi)) ∧
      (l.total_call_oi = 0 → l.total_put_oi = 0 → l.put_call_ratio = 0) ∧
      (l.total_call_oi = 0 → 0 < l.total_put_oi →
        l.put_call_ratio = 99.99) := by
    intro cnt cap tol hmem
    rw [Fetch.levelsCore] at hmem
    obtain ⟨k, hk, heq⟩ := List.mem_map.mp hmem
    rw [← heq]
    exact levelFor_pcr_ok expiries spot tol tte _ k
  rcases hl with hl | hl
  · rw [Fetch.find_confluence_levels_enhanced] at hl
    split at hl
    · simp at hl
    · exact hcore 2 5 tolC hl
  · rw [Fetch.find_resonance_levels_enhanced] at hl
    split at hl
    · simp at hl
    · exact hcore 3 2 tolR hl

/-- C5 witness: bs_gamma_safe applied at a degenerate input with negative
volatility and at the valid input spot 100, strike 100, one year, rate
0.05, volatility 1. -/
theorem bs_gamma_safe_witness :
    Fetch.calculate_black_scholes_gamma 1 1 1 0.05 (-1) = 0 ∧
    0 ≤ LocalSrv.calculate_black_scholes_gamma 100 100 1 0.05 1 :=
  ⟨((bs_gamma_safe 1 1 1 0.05 (-1)).1
      (Or.inr (Or.inr (Or.inl (by norm_num))))).1,
   ((bs_gamma_safe 100 100 1 0.05 1).2 (by norm_num) (by norm_num)
      (by norm_num) (by norm_num)).2⟩

end OptionsQuant
